/-
Verification of the pgModeler operation-history core (`Operation` /
`OperationList`, src/libpgmodeler/src/operationlist.h).

The repository ships only the class declarations together with the inline
`Operation` constructor; the bodies of the `OperationList` methods live in
`operationlist.cpp`, which is not part of the tree.  The `Operation` record,
its constants and its constructor are therefore embedded directly from the
header, while every `OperationList` method body is modelled from the spec
(each such definition carries a doc comment starting with
`Modelled from the spec:`).

Modelling conventions:
* `BaseObject *` pointers into the live model are object identifiers
  (`Nat`); `NULL` is `Option.none`.
* The live database model (`ModeloBD *model`) is a partial map
  `Nat → Option Nat` from object ids to object contents (`none` = the
  object is absent from the model).
* Pooled snapshot objects are addressed by pool handles (`Nat`), allocated
  by a fresh counter; their contents form a second partial map.  Membership
  of a handle in the `object_pool` vector is tracked separately, mirroring
  `vector<BaseObject *> object_pool`.
* `unsigned` is `Nat`, `int` is `Int`; the one narrowing conversion that
  matters (`unsigned` → `int` in `updateObjectIndex`) is made explicit.
-/
import Mathlib

/-- Pointwise update of a partial map (assignment to one model slot or one
pool slot). -/
def setFn (f : Nat → Option Nat) (k : Nat) (v : Option Nat) : Nat → Option Nat :=
  fun x => if x = k then v else f x

/-- The `Operation` record, embedded from the header (fields of class
`Operation`, operationlist.h lines 31-82).  `QString xml_definition` is kept
as a `String`; the three `BaseObject *` fields are optional identifiers. -/
structure Operation where
  parent_obj : Option Nat
  pool_obj : Option Nat
  original_obj : Option Nat
  xml_definition : String
  op_type : Nat
  chain_type : Nat
  object_idx : Int
deriving DecidableEq

namespace Operation

/-- `static const unsigned OBJECT_MODIFIED=0` (header line 61). -/
def OBJECT_MODIFIED : Nat := 0
/-- `static const unsigned OBJECT_CREATED=1` (header line 62). -/
def OBJECT_CREATED : Nat := 1
/-- `static const unsigned OBJECT_REMOVED=2` (header line 63). -/
def OBJECT_REMOVED : Nat := 2
/-- `static const unsigned OBJECT_MOVED=3` (header line 68). -/
def OBJECT_MOVED : Nat := 3
/-- `static const unsigned NO_CHAIN=10` (header line 71). -/
def NO_CHAIN : Nat := 10
/-- `static const unsigned CHAIN_START=11` (header line 72). -/
def CHAIN_START : Nat := 11
/-- `static const unsigned CHAIN_MIDDLE=12` (header line 73). -/
def CHAIN_MIDDLE : Nat := 12
/-- `static const unsigned CHAIN_END=13` (header line 74). -/
def CHAIN_END : Nat := 13

/-- The default constructor `Operation(void)` (header lines 77-79).  It
assigns `parent_obj=NULL; pool_obj=NULL; original_obj=NULL; object_idx=-1;
chain_type=NO_CHAIN;` and nothing else: the member `op_type` is left
holding whatever value the underlying memory had, which we expose as the
explicit parameter `mem_op_type`.  (`xml_definition` is a `QString`, whose
own default constructor produces the empty string.) -/
def init (mem_op_type : Nat) : Operation :=
  { parent_obj := none
    pool_obj := none
    original_obj := none
    xml_definition := ""
    op_type := mem_op_type
    chain_type := NO_CHAIN
    object_idx := -1 }

end Operation

/-- The `OperationList` manager state, fields embedded from the header
(operationlist.h lines 84-116), together with the two external maps it
manipulates: the live model (`ModeloBD *model`) and the contents of the
pooled snapshot objects.  `max_size` is `static` in the source; following
the spec (§9, "explicit configuration value owned by the history manager
instance") it is carried as an instance field.  `signals_emitted` counts
the `s_operationExecuted` signals fired so far (one per operation processed
during undo/redo). -/
structure OperationList where
  ignore_chain : Bool
  object_pool : List Nat
  not_removed_objs : List Nat
  operations : List Operation
  model : Nat → Option Nat
  pool_content : Nat → Option Nat
  next_pool_id : Nat
  max_size : Nat
  next_op_chain : Nat
  current_index : Int
  signals_emitted : Nat

namespace OperationList

/-- The constructor `OperationList(ModeloBD *model)`: empty history over a
given live model, with a given capacity (spec §4.2 "Capacity", §9). -/
def init (max : Nat) (model : Nat → Option Nat) : OperationList :=
  { ignore_chain := false
    object_pool := []
    not_removed_objs := []
    operations := []
    model := model
    pool_content := fun _ => none
    next_pool_id := 0
    max_size := max
    next_op_chain := Operation.NO_CHAIN
    current_index := 0
    signals_emitted := 0 }

/-- Chain tags of the history, in order. -/
def chainTags (st : OperationList) : List Nat :=
  st.operations.map (·.chain_type)

/-- Walk backward from position `i` to the start of the chain containing
`i`: while the tag at the current position is `CHAIN_MIDDLE` or
`CHAIN_END`, step down; a `CHAIN_START`, a `NO_CHAIN` position, or the
bottom of the list stops the walk (spec §4.2 `undo`: "walk backward to the
`ChainStart` of its chain"). -/
def startOfChain (tags : List Nat) : Nat → Nat
  | 0 => 0
  | i + 1 =>
    if tags.getD (i + 1) Operation.NO_CHAIN = Operation.CHAIN_MIDDLE
        ∨ tags.getD (i + 1) Operation.NO_CHAIN = Operation.CHAIN_END then
      startOfChain tags i
    else
      i + 1

/-- Number of additional positions (beyond the first) covered by the chain
span that starts at the head of `tags`: a `NO_CHAIN` or `CHAIN_END` head
spans only itself, otherwise the span extends while the next tag is
`CHAIN_MIDDLE` or `CHAIN_END` (spec §4.2 `redo`: "determines the forward
chain span ... from `ChainStart`/`ChainMiddle` through its `ChainEnd`"). -/
def fwdLen : List Nat → Nat
  | [] => 0
  | [_] => 0
  | t :: u :: rest =>
    if t = Operation.CHAIN_END ∨ t = Operation.NO_CHAIN then 0
    else if u = Operation.CHAIN_MIDDLE ∨ u = Operation.CHAIN_END then
      1 + fwdLen (u :: rest)
    else 0

/-- `isUndoAvailable` — Modelled from the spec: body of
`OperationList::isUndoAvailable` (operationlist.cpp is not in the tree).
Undo requires `currentIndex > 0` (spec §4.2 `undo`, §3 cursor semantics). -/
def isUndoAvailable (st : OperationList) : Bool :=
  decide (0 < st.current_index)

/-- `isRedoAvailable` — Modelled from the spec: body of
`OperationList::isRedoAvailable` (operationlist.cpp is not in the tree).
Redo requires `currentIndex < size` (spec §4.2 `redo`). -/
def isRedoAvailable (st : OperationList) : Bool :=
  decide (st.current_index < (st.operations.length : Int))

/-- `getCurrentSize` — Modelled from the spec: body of
`OperationList::getCurrentSize`; returns the number of stored operations. -/
def getCurrentSize (st : OperationList) : Nat :=
  st.operations.length

/-- `getCurrentIndex` — Modelled from the spec: body of
`OperationList::getCurrentIndex`; returns the cursor (an `int` in the
source). -/
def getCurrentIndex (st : OperationList) : Int :=
  st.current_index

/-- `getMaximumSize` — Modelled from the spec: body of
`OperationList::getMaximumSize`. -/
def getMaximumSize (st : OperationList) : Nat :=
  st.max_size

/-- `setMaximumSize` — Modelled from the spec: body of
`OperationList::setMaximumSize` (the capacity policy value, spec §4.2
"Capacity" / §6). -/
def setMaximumSize (st : OperationList) (max : Nat) : OperationList :=
  { st with max_size := max }

/-- `isOperationChainStarted` — Modelled from the spec: body of
`OperationList::isOperationChainStarted`; a chain is open while the tag for
the next registered operation is not `NO_CHAIN` (spec §4.2 state machine). -/
def isOperationChainStarted (st : OperationList) : Bool :=
  decide (st.next_op_chain ≠ Operation.NO_CHAIN)

/-- `startOperationChain` — Modelled from the spec: body of
`OperationList::startOperationChain`.  Opens the builder window: the next
registered operation will be tagged `CHAIN_START` (spec §4.2).  Starting a
chain while one is already open is a contract violation treated as ignored
(spec §9 open question: nested chains are disallowed, not merged). -/
def startOperationChain (st : OperationList) : OperationList :=
  if st.next_op_chain ≠ Operation.NO_CHAIN then st
  else { st with next_op_chain := Operation.CHAIN_START }

/-- `finishOperationChain` — Modelled from the spec: body of
`OperationList::finishOperationChain`.  Closes the builder window and marks
the last registered operation as the end of the chain: a trailing
`CHAIN_MIDDLE` becomes `CHAIN_END`; a trailing lone `CHAIN_START` (a
one-element chain) degenerates to `NO_CHAIN` (spec §4.2: first member
`ChainStart`, interior `ChainMiddle`, last `ChainEnd`). -/
def finishOperationChain (st : OperationList) : OperationList :=
  let st' := { st with next_op_chain := Operation.NO_CHAIN }
  match st.operations.getLast? with
  | none => st'
  | some last =>
    if last.chain_type = Operation.CHAIN_MIDDLE then
      { st' with operations :=
          st.operations.dropLast ++ [{ last with chain_type := Operation.CHAIN_END }] }
    else if last.chain_type = Operation.CHAIN_START then
      { st' with operations :=
          st.operations.dropLast ++ [{ last with chain_type := Operation.NO_CHAIN }] }
    else st'

/-- `ignoreOperationChain` — Modelled from the spec: body of
`OperationList::ignoreOperationChain`; suppresses chain tagging without
closing an open chain (spec §4.2). -/
def ignoreOperationChain (st : OperationList) (value : Bool) : OperationList :=
  { st with ignore_chain := value }

/-- Number of operations currently referencing the pool entry `h` (the
conceptual reference count of a pooled snapshot, spec §3 "Pool" and §9
"Pool ownership"). -/
def refCount (st : OperationList) (h : Nat) : Nat :=
  (st.operations.filter (fun op => op.pool_obj = some h)).length

/-- `removeFromPool` — Modelled from the spec: body of
`OperationList::removeFromPool` (operationlist.cpp is not in the tree).
Removes the handle from the pool vector and deallocates the snapshot when
no remaining operation references it (header comment lines 130-131; spec
§3 lifecycle: "Pool entries are ... destroyed when no Operation references
them and they are not in the orphan list"). -/
def removeFromPool (st : OperationList) (h : Nat) : OperationList :=
  { st with
    object_pool := st.object_pool.erase h
    pool_content :=
      if st.refCount h = 0 ∧ h ∉ st.not_removed_objs then
        setFn st.pool_content h none
      else st.pool_content }

/-- Releases the pool references of a batch of operations that were just
dropped from the history (the operations must already have been removed
from `st.operations`). -/
def releaseOps (st : OperationList) (removed : List Operation) : OperationList :=
  removed.foldl
    (fun acc op =>
      match op.pool_obj with
      | some h => acc.removeFromPool h
      | none => acc)
    st

/-- Modelled from the spec: the redo-branch truncation step of
`OperationList::registerObject` (operationlist.cpp is not in the tree):
"Appending a new Operation while the cursor is not at the end truncates
everything after the cursor" (spec §3); the truncated tail's pool
references are released (spec §3 lifecycle). -/
def truncateRedo (st : OperationList) : OperationList :=
  let t := min st.current_index.toNat st.operations.length
  releaseOps
    { st with operations := st.operations.take t, current_index := (t : Int) }
    (st.operations.drop t)

/-- Modelled from the spec: the capacity-eviction step of
`OperationList::registerObject`: "when exceeded, the oldest Operation is
evicted and its pool reference released" (spec §4.2 "Capacity"). -/
def evictOldest (st : OperationList) : OperationList :=
  match st.operations with
  | [] => st
  | oldest :: rest =>
    releaseOps { st with operations := rest } [oldest]

/-- `registerObject` — Modelled from the spec: body of
`OperationList::registerObject` (operationlist.cpp is not in the tree).
Steps (spec §4.2 `registerObject`): discard the redoable tail beyond the
cursor; evict the oldest entry if the capacity cap is reached; snapshot the
object's current (pre-mutation) state into a fresh pool entry (`addToPool`;
for a `Created` registration the object is not yet in the model, so the
snapshot is the "absence" value `none`); append the new `Operation` tagged
with the current chain-building state; advance the cursor past it. -/
def registerObject (st : OperationList) (object : Nat) (op_type : Nat)
    (object_idx : Int) (parent_obj : Option Nat) : OperationList :=
  let st1 := truncateRedo st
  let st2 := if st1.max_size ≤ st1.operations.length then evictOldest st1 else st1
  let h := st2.next_pool_id
  let chain := if st2.ignore_chain then Operation.NO_CHAIN else st2.next_op_chain
  let op : Operation :=
    { parent_obj := parent_obj
      pool_obj := some h
      original_obj := some object
      xml_definition := ""
      op_type := op_type
      chain_type := chain
      object_idx := object_idx }
  { st2 with
    object_pool := st2.object_pool ++ [h]
    pool_content := setFn st2.pool_content h (st2.model object)
    next_pool_id := h + 1
    operations := st2.operations ++ [op]
    next_op_chain :=
      if ¬st2.ignore_chain ∧ st2.next_op_chain = Operation.CHAIN_START then
        Operation.CHAIN_MIDDLE
      else st2.next_op_chain
    current_index := ((st2.operations.length + 1 : Nat) : Int) }

/-- One pool↔model exchange: the contents of the live object and of its
pooled snapshot trade places. -/
def poolModelSwap (w : (Nat → Option Nat) × (Nat → Option Nat))
    (op : Operation) : (Nat → Option Nat) × (Nat → Option Nat) :=
  match op.pool_obj, op.original_obj with
  | some p, some o => (setFn w.1 o (w.2 p), setFn w.2 p (w.1 o))
  | _, _ => w

/-- `executeOperation` — Modelled from the spec: body of
`OperationList::executeOperation` (operationlist.cpp is not in the tree).
Undo and redo exchange the pooled snapshot's content with the live
object's content rather than copying one-way (spec §4.2 `redo`: "undo and
redo exchange pool and live content"; §9 second open question).  Under
this exchange each operation kind behaves as specified: for `Created` the
pool holds the "absence" value, so the exchange removes the object on undo
and reinserts it on redo; for `Removed` it reinserts on undo and removes
on redo; for `Modified`/`Moved` it swaps contents.  The `redo` direction
flag only governs relationship revalidation inside the model layer, which
is outside this core (spec §1 out-of-scope). -/
def executeOperation (st : OperationList) (op : Operation) (redo : Bool) :
    OperationList :=
  let w := poolModelSwap (st.model, st.pool_content) op
  { st with model := w.1, pool_content := w.2 }

/-- `undoOperation` — Modelled from the spec: body of
`OperationList::undoOperation` (operationlist.cpp is not in the tree).
Requires `currentIndex > 0`; determines the chain span ending at
`currentIndex - 1` (walking back to its `CHAIN_START` when chained),
executes every operation of the span from last to first, emits one signal
per operation, and moves the cursor to the span's start (spec §4.2 `undo`,
§7: an unavailable undo is a failed operation with no mutation).  The
returned boolean reports success. -/
def undoOperation (st : OperationList) : OperationList × Bool :=
  if st.current_index ≤ 0 then (st, false)
  else
    let i := st.current_index.toNat - 1
    let s := startOfChain st.chainTags i
    let span := (st.operations.drop s).take (i + 1 - s)
    let st' := span.reverse.foldl (fun acc op => acc.executeOperation op false) st
    ({ st' with
        current_index := (s : Int)
        signals_emitted := st'.signals_emitted + span.length }, true)

/-- `redoOperation` — Modelled from the spec: body of
`OperationList::redoOperation` (operationlist.cpp is not in the tree).
Requires `currentIndex < size`; determines the forward chain span starting
at `currentIndex` (through its `CHAIN_END`), executes the span in order,
emits one signal per operation, and moves the cursor past the span (spec
§4.2 `redo`, §7). -/
def redoOperation (st : OperationList) : OperationList × Bool :=
  if (st.operations.length : Int) ≤ st.current_index then (st, false)
  else
    let i := st.current_index.toNat
    let e := i + fwdLen (st.chainTags.drop i)
    let span := (st.operations.drop i).take (e + 1 - i)
    let st' := span.foldl (fun acc op => acc.executeOperation op true) st
    ({ st' with
        current_index := ((e + 1 : Nat) : Int)
        signals_emitted := st'.signals_emitted + span.length }, true)

/-- `removeOperations` — Modelled from the spec: body of
`OperationList::removeOperations` (operationlist.cpp is not in the tree).
"Clears the entire list and pool, releasing all snapshots except orphaned
ones still externally referenced; resets `currentIndex` to 0" (spec §4.2). -/
def removeOperations (st : OperationList) : OperationList :=
  { st with
    operations := []
    object_pool := []
    pool_content := fun h =>
      if h ∈ st.not_removed_objs then st.pool_content h else none
    current_index := 0 }

/-- `removeLastOperation` — Modelled from the spec: body of
`OperationList::removeLastOperation` (operationlist.cpp is not in the
tree).  Pops the most recently appended operation — and, when it belongs
to a chain, the whole trailing chain (header comment lines 207-215) —
releasing the removed pool references, without executing any reversal on
the live model; the cursor is pulled back to the new end when it pointed
past it. -/
def removeLastOperation (st : OperationList) : OperationList :=
  match st.operations with
  | [] => st
  | _ :: _ =>
    let i := st.operations.length - 1
    let s := startOfChain st.chainTags i
    releaseOps
      { st with
        operations := st.operations.take s
        current_index := min st.current_index (s : Int) }
      (st.operations.drop s)

/-- The `unsigned` → `int` conversion performed when an unsigned index is
stored into the signed member `object_idx` (two's-complement narrowing,
the behavior of every supported target). -/
def intOfUnsigned (n : Nat) : Int :=
  let m : Nat := n % 2 ^ 32
  if m < 2 ^ 31 then (m : Int) else (m : Int) - 2 ^ 32

/-- `updateObjectIndex` — Modelled from the spec: body of
`OperationList::updateObjectIndex` (operationlist.cpp is not in the tree).
"Rewrites `objectIndex` on every Operation that references that object"
(spec §4.2); the stored value undergoes the `unsigned new_idx` →
`int object_idx` narrowing dictated by the declared types (header lines
57 and 224). -/
def updateObjectIndex (st : OperationList) (object : Nat) (new_idx : Nat) :
    OperationList :=
  { st with
    operations := st.operations.map (fun op =>
      if op.original_obj = some object then
        { op with object_idx := intOfUnsigned new_idx }
      else op) }

/-- A mutation applied by the editor to one live object, outside the
history manager (spec §4.2 `registerObject` contract: the caller mutates
the object right after registering it). -/
def mutateObject (st : OperationList) (object : Nat) (v : Option Nat) :
    OperationList :=
  { st with model := setFn st.model object v }

/-- The cursor-bounds invariant: the cursor never leaves
`[0, operations.size()]`. -/
def CursorInv (st : OperationList) : Prop :=
  0 ≤ st.current_index ∧ st.current_index ≤ (st.operations.length : Int)

instance (st : OperationList) : Decidable st.CursorInv := by
  unfold OperationList.CursorInv; infer_instance

end OperationList

/-- Parameters of one `registerObject` call. -/
structure RegCall where
  obj : Nat
  op_type : Nat
  object_idx : Int
  parent : Option Nat
deriving DecidableEq

/-- Registration followed by the caller's corresponding model mutation
(spec §4.2: `registerObject` "MUST be called immediately before the caller
mutates `object`"); `v` is the post-mutation content of the object
(`none` when the mutation removes it). -/
def regStep (st : OperationList) (c : RegCall × Option Nat) : OperationList :=
  (st.registerObject c.1.obj c.1.op_type c.1.object_idx c.1.parent).mutateObject
    c.1.obj c.2

/-- A sequence of registration+mutation steps. -/
def regSteps (st : OperationList) (script : List (RegCall × Option Nat)) :
    OperationList :=
  script.foldl regStep st

/-- A sequence of bare `registerObject` calls. -/
def applyRegs (st : OperationList) (calls : List RegCall) : OperationList :=
  calls.foldl (fun acc c => acc.registerObject c.obj c.op_type c.object_idx c.parent)
    st

/-- `n` consecutive `undoOperation` calls (each on the state produced by the
previous one). -/
def undoN (st : OperationList) : Nat → OperationList
  | 0 => st
  | n + 1 => undoN (st.undoOperation).1 n

/-- `[s, s+1, ..., s+n-1]`: the pool handles allocated by `n` consecutive
registrations starting from fresh counter `s`. -/
def seqFrom (s : Nat) : Nat → List Nat
  | 0 => []
  | n + 1 => s :: seqFrom (s + 1) n

/-- Positions `b..i` of `tags` form one complete chain block of the history
(spec §3 "History list", glossary "Chain: a contiguous run of
Operations"): either a lone unchained operation, a lone open
`CHAIN_START`, or a `CHAIN_START` followed by `CHAIN_MIDDLE`s and closed
by a `CHAIN_END` (a still-open chain may end at the list's end instead). -/
def IsChainBlock (tags : List Nat) (b i : Nat) : Prop :=
  (b = i ∧
    (tags.getD i Operation.NO_CHAIN = Operation.NO_CHAIN
      ∨ (tags.getD i Operation.NO_CHAIN = Operation.CHAIN_START
          ∧ ¬(tags.getD (i + 1) Operation.NO_CHAIN = Operation.CHAIN_MIDDLE
              ∨ tags.getD (i + 1) Operation.NO_CHAIN = Operation.CHAIN_END))))
  ∨ (b < i ∧ tags.getD b Operation.NO_CHAIN = Operation.CHAIN_START
      ∧ (∀ k, k < i → b < k → tags.getD k Operation.NO_CHAIN = Operation.CHAIN_MIDDLE)
      ∧ (tags.getD i Operation.NO_CHAIN = Operation.CHAIN_END
          ∨ (tags.getD i Operation.NO_CHAIN = Operation.CHAIN_MIDDLE
              ∧ i + 1 = tags.length)))

instance (tags : List Nat) (b i : Nat) : Decidable (IsChainBlock tags b i) := by
  unfold IsChainBlock; infer_instance


/-! ### Basic lemmas about map updates and the pool↔model exchange -/

open OperationList

theorem setFn_self (f : Nat → Option Nat) (k : Nat) (v : Option Nat) :
    setFn f k v k = v := by
  simp [setFn]

theorem setFn_ne (f : Nat → Option Nat) (k : Nat) (v : Option Nat) (x : Nat)
    (h : x ≠ k) : setFn f k v x = f x := by
  simp [setFn, h]

theorem setFn_cancel (f : Nat → Option Nat) (k : Nat) (v : Option Nat) :
    setFn (setFn f k v) k (f k) = f := by
  funext x
  by_cases h : x = k <;> simp [setFn, h]

theorem poolModelSwap_swap (w : (Nat → Option Nat) × (Nat → Option Nat))
    (op : Operation) : poolModelSwap (poolModelSwap w op) op = w := by
  cases hp : op.pool_obj with
  | none => simp [poolModelSwap, hp]
  | some p =>
    cases ho : op.original_obj with
    | none => simp [poolModelSwap, hp, ho]
    | some o =>
      simp only [poolModelSwap, hp, ho]
      refine Prod.ext ?_ ?_
      · show setFn (setFn w.1 o (w.2 p)) o (setFn w.2 p (w.1 o) p) = w.1
        rw [setFn_self]
        funext x
        by_cases h : x = o <;> simp [setFn, h]
      · show setFn (setFn w.2 p (w.1 o)) p (setFn w.1 o (w.2 p) o) = w.2
        rw [setFn_self]
        funext x
        by_cases h : x = p <;> simp [setFn, h]

theorem foldSwap_cancel_rev (l : List Operation) :
    ∀ w, l.foldl poolModelSwap (l.reverse.foldl poolModelSwap w) = w := by
  induction l with
  | nil => intro w; rfl
  | cons a t ih =>
    intro w
    rw [List.reverse_cons, List.foldl_append]
    simp only [List.foldl_cons, List.foldl_nil]
    rw [poolModelSwap_swap]
    exact ih w

theorem foldSwap_cancel_fwd (l : List Operation) :
    ∀ w, l.reverse.foldl poolModelSwap (l.foldl poolModelSwap w) = w := by
  intro w
  have h := foldSwap_cancel_rev l.reverse w
  rw [List.reverse_reverse] at h
  exact h

theorem execFold (r : Bool) (l : List Operation) :
    ∀ st : OperationList,
      l.foldl (fun acc op => acc.executeOperation op r) st =
        { st with
          model := (l.foldl poolModelSwap (st.model, st.pool_content)).1
          pool_content := (l.foldl poolModelSwap (st.model, st.pool_content)).2 } := by
  induction l with
  | nil => intro st; rfl
  | cons a t ih =>
    intro st
    simp only [List.foldl_cons]
    rw [ih]
    rfl

/-! ### Chain-walk lemmas -/

theorem getD_drop (l : List Nat) (m j : Nat) :
    (l.drop m).getD j Operation.NO_CHAIN = l.getD (m + j) Operation.NO_CHAIN := by
  simp [List.getD_eq_getElem?_getD, List.getElem?_drop]

theorem startOfChain_le (tags : List Nat) : ∀ i, startOfChain tags i ≤ i
  | 0 => Nat.le_refl 0
  | i + 1 => by
    unfold startOfChain
    split
    · exact Nat.le_trans (startOfChain_le tags i) (Nat.le_succ i)
    · exact Nat.le_refl _

theorem startOfChain_run (tags : List Nat) (b : Nat)
    (hb : ¬(tags.getD b Operation.NO_CHAIN = Operation.CHAIN_MIDDLE
        ∨ tags.getD b Operation.NO_CHAIN = Operation.CHAIN_END)) :
    ∀ d, (∀ k, b < k → k ≤ b + d →
        tags.getD k Operation.NO_CHAIN = Operation.CHAIN_MIDDLE
        ∨ tags.getD k Operation.NO_CHAIN = Operation.CHAIN_END) →
      startOfChain tags (b + d) = b := by
  intro d
  induction d with
  | zero =>
    intro _
    match hb' : b with
    | 0 => rfl
    | j + 1 =>
      unfold startOfChain
      rw [if_neg]
      exact hb
  | succ d ih =>
    intro hrun
    have hstep : tags.getD (b + d + 1) Operation.NO_CHAIN = Operation.CHAIN_MIDDLE
        ∨ tags.getD (b + d + 1) Operation.NO_CHAIN = Operation.CHAIN_END := by
      refine hrun (b + d + 1) (by omega) (by omega)
    show startOfChain tags (b + d + 1) = b
    unfold startOfChain
    rw [if_pos hstep]
    exact ih (fun k hk hk' => hrun k hk (by omega))

theorem fwdLen_stop (t : Nat) (rest : List Nat)
    (h : t = Operation.CHAIN_END ∨ t = Operation.NO_CHAIN) :
    fwdLen (t :: rest) = 0 := by
  cases rest with
  | nil => rfl
  | cons u r => unfold fwdLen; rw [if_pos h]

theorem fwdLen_lt_length : ∀ l : List Nat, l ≠ [] → fwdLen l < l.length := by
  intro l
  induction l with
  | nil => intro h; exact absurd rfl h
  | cons t rest ih =>
    intro _
    cases rest with
    | nil => simp [fwdLen]
    | cons u r =>
      unfold fwdLen
      split
      · simp
      · split
        · have := ih (by simp)
          simp only [List.length_cons] at this ⊢
          omega
        · simp

theorem fwdLen_block : ∀ (d : Nat) (L : List Nat) (t : Nat),
    ¬(t = Operation.CHAIN_END ∨ t = Operation.NO_CHAIN) →
    (∀ k, k < d → L.getD k Operation.NO_CHAIN = Operation.CHAIN_MIDDLE) →
    (L.getD d Operation.NO_CHAIN = Operation.CHAIN_END
      ∨ (L.getD d Operation.NO_CHAIN = Operation.CHAIN_MIDDLE ∧ L.length = d + 1)) →
    fwdLen (t :: L) = d + 1 := by
  intro d
  induction d with
  | zero =>
    intro L t ht _ hlast
    match L with
    | [] => rcases hlast with h | ⟨h, _⟩ <;> exact absurd h (by decide)
    | u :: rest =>
      have hu : u = Operation.CHAIN_END
          ∨ (u = Operation.CHAIN_MIDDLE ∧ rest = []) := by
        rcases hlast with h | ⟨h, hlen⟩
        · exact Or.inl h
        · refine Or.inr ⟨h, ?_⟩
          simpa using hlen
      unfold fwdLen
      rw [if_neg ht]
      rcases hu with h | ⟨h, hrest⟩
      · rw [if_pos (Or.inr h), fwdLen_stop u rest (Or.inl h)]
      · subst hrest
        rw [if_pos (Or.inl h)]
        rfl
  | succ d ih =>
    intro L t ht hmid hlast
    match L with
    | [] =>
      exfalso
      have hnil : ∀ n : Nat,
          ([] : List Nat).getD n Operation.NO_CHAIN = Operation.NO_CHAIN :=
        fun _ => rfl
      rcases hlast with h | ⟨h, _⟩ <;> rw [hnil] at h <;> exact absurd h (by decide)
    | u :: rest =>
      have hu : u = Operation.CHAIN_MIDDLE := hmid 0 (Nat.succ_pos d)
      have hrec : fwdLen (u :: rest) = d + 1 := by
        refine ih rest u ?_ ?_ ?_
        · rw [hu]; decide
        · intro k hk
          exact hmid (k + 1) (by omega)
        · rcases hlast with h | ⟨h, hlen⟩
          · exact Or.inl h
          · refine Or.inr ⟨h, ?_⟩
            simpa using hlen
      unfold fwdLen
      rw [if_neg ht, if_pos (Or.inl hu), hrec]
      omega

theorem IsChainBlock.spans (tags : List Nat) (b i : Nat)
    (h : IsChainBlock tags b i) (hi : i < tags.length) :
    startOfChain tags i = b ∧ b + fwdLen (tags.drop b) = i := by
  rcases h with ⟨hbi, htag⟩ | ⟨hbi, hstart, hmid, hend⟩
  · subst hbi
    have hb : ¬(tags.getD b Operation.NO_CHAIN = Operation.CHAIN_MIDDLE
        ∨ tags.getD b Operation.NO_CHAIN = Operation.CHAIN_END) := by
      rcases htag with h10 | ⟨h11, _⟩
      · rw [h10]; decide
      · rw [h11]; decide
    constructor
    · have := startOfChain_run tags b hb 0 (by intro k hk hk'; omega)
      simpa using this
    · have hdrop : tags.drop b = tags.getD b Operation.NO_CHAIN :: tags.drop (b + 1) := by
        rw [List.getD_eq_getElem tags Operation.NO_CHAIN hi]
        exact List.drop_eq_getElem_cons hi
      rcases htag with h10 | ⟨h11, hnext⟩
      · rw [hdrop, h10, fwdLen_stop _ _ (Or.inr rfl)]
        omega
      · rw [hdrop, h11]
        cases hrest : tags.drop (b + 1) with
        | nil => rfl
        | cons u r =>
          have hu : tags.getD (b + 1) Operation.NO_CHAIN = u := by
            have h0 := getD_drop tags (b + 1) 0
            rw [hrest] at h0
            simpa using h0.symm
          unfold fwdLen
          rw [if_neg (by decide), if_neg (by rw [← hu]; exact hnext)]
          omega
  · have hblen : b < tags.length := lt_trans hbi hi
    constructor
    · have hb : ¬(tags.getD b Operation.NO_CHAIN = Operation.CHAIN_MIDDLE
          ∨ tags.getD b Operation.NO_CHAIN = Operation.CHAIN_END) := by
        rw [hstart]; decide
      have hrun := startOfChain_run tags b hb (i - b) (by
        intro k hk hk'
        rcases Nat.lt_or_ge k i with hlt | hge
        · exact Or.inl (hmid k hlt hk)
        · have hki : k = i := by omega
          subst hki
          rcases hend with h13 | ⟨h12, _⟩
          · exact Or.inr h13
          · exact Or.inl h12)
      rw [show b + (i - b) = i by omega] at hrun
      exact hrun
    · have hdrop : tags.drop b = tags.getD b Operation.NO_CHAIN :: tags.drop (b + 1) := by
        rw [List.getD_eq_getElem tags Operation.NO_CHAIN hblen]
        exact List.drop_eq_getElem_cons hblen
      have hfb := fwdLen_block (i - b - 1) (tags.drop (b + 1))
        Operation.CHAIN_START (by decide)
        (by
          intro k hk
          rw [getD_drop tags (b + 1) k]
          exact hmid (b + 1 + k) (by omega) (by omega))
        (by
          rw [getD_drop tags (b + 1) (i - b - 1),
            show b + 1 + (i - b - 1) = i by omega]
          rcases hend with h13 | ⟨h12, hlen⟩
          · exact Or.inl h13
          · refine Or.inr ⟨h12, ?_⟩
            rw [List.length_drop]
            omega)
      rw [hdrop, hstart, hfb]
      omega

/-! ### Characterization lemmas for the public operations -/

theorem removeFromPool_fields (st : OperationList) (h : Nat) :
    (st.removeFromPool h).model = st.model
    ∧ (st.removeFromPool h).operations = st.operations
    ∧ (st.removeFromPool h).current_index = st.current_index
    ∧ (st.removeFromPool h).next_pool_id = st.next_pool_id
    ∧ (st.removeFromPool h).next_op_chain = st.next_op_chain
    ∧ (st.removeFromPool h).ignore_chain = st.ignore_chain
    ∧ (st.removeFromPool h).max_size = st.max_size
    ∧ (st.removeFromPool h).signals_emitted = st.signals_emitted
    ∧ (st.removeFromPool h).not_removed_objs = st.not_removed_objs := by
  unfold removeFromPool
  exact ⟨rfl, rfl, rfl, rfl, rfl, rfl, rfl, rfl, rfl⟩

theorem releaseOps_cons (st : OperationList) (a : Operation)
    (t : List Operation) :
    releaseOps st (a :: t) =
      releaseOps
        (match a.pool_obj with
         | some h => st.removeFromPool h
         | none => st) t :=
  rfl

theorem releaseOps_fields (l : List Operation) :
    ∀ st : OperationList,
      (releaseOps st l).model = st.model
      ∧ (releaseOps st l).operations = st.operations
      ∧ (releaseOps st l).current_index = st.current_index
      ∧ (releaseOps st l).next_pool_id = st.next_pool_id
      ∧ (releaseOps st l).next_op_chain = st.next_op_chain
      ∧ (releaseOps st l).ignore_chain = st.ignore_chain
      ∧ (releaseOps st l).max_size = st.max_size
      ∧ (releaseOps st l).signals_emitted = st.signals_emitted
      ∧ (releaseOps st l).not_removed_objs = st.not_removed_objs := by
  induction l with
  | nil => intro st; exact ⟨rfl, rfl, rfl, rfl, rfl, rfl, rfl, rfl, rfl⟩
  | cons a t ih =>
    intro st
    rw [releaseOps_cons]
    cases hp : a.pool_obj with
    | none => exact ih st
    | some h =>
      obtain ⟨m1, o1, c1, n1, nc1, ic1, ms1, sg1, nr1⟩ := ih (st.removeFromPool h)
      obtain ⟨m2, o2, c2, n2, nc2, ic2, ms2, sg2, nr2⟩ := removeFromPool_fields st h
      exact ⟨m1.trans m2, o1.trans o2, c1.trans c2, n1.trans n2, nc1.trans nc2,
        ic1.trans ic2, ms1.trans ms2, sg1.trans sg2, nr1.trans nr2⟩

theorem truncateRedo_of_at_end (st : OperationList)
    (h : st.current_index = (st.operations.length : Int)) :
    truncateRedo st = st := by
  unfold truncateRedo
  rw [h]
  simp only [Int.toNat_natCast, Nat.min_self, List.take_length, List.drop_length]
  unfold releaseOps
  simp only [List.foldl_nil]
  rw [← h]

theorem registerObject_at_end (st : OperationList) (o k : Nat) (oi : Int)
    (p : Option Nat)
    (hend : st.current_index = (st.operations.length : Int))
    (hcap : st.operations.length < st.max_size) :
    st.registerObject o k oi p =
      { st with
        object_pool := st.object_pool ++ [st.next_pool_id]
        pool_content := setFn st.pool_content st.next_pool_id (st.model o)
        next_pool_id := st.next_pool_id + 1
        operations := st.operations ++
          [{ parent_obj := p
             pool_obj := some st.next_pool_id
             original_obj := some o
             xml_definition := ""
             op_type := k
             chain_type := if st.ignore_chain then Operation.NO_CHAIN
               else st.next_op_chain
             object_idx := oi }]
        next_op_chain :=
          if ¬st.ignore_chain ∧ st.next_op_chain = Operation.CHAIN_START then
            Operation.CHAIN_MIDDLE
          else st.next_op_chain
        current_index := ((st.operations.length + 1 : Nat) : Int) } := by
  unfold registerObject
  rw [truncateRedo_of_at_end st hend]
  dsimp only
  rw [if_neg (show ¬st.max_size ≤ st.operations.length by omega)]

theorem undoOperation_of_pos (st : OperationList) (hpos : 0 < st.current_index)
    (i s : Nat) (span : List Operation)
    (hi : i = st.current_index.toNat - 1)
    (hs : s = startOfChain st.chainTags i)
    (hspan : span = (st.operations.drop s).take (i + 1 - s)) :
    st.undoOperation =
      ({ st with
          model := (span.reverse.foldl poolModelSwap (st.model, st.pool_content)).1
          pool_content :=
            (span.reverse.foldl poolModelSwap (st.model, st.pool_content)).2
          current_index := (s : Int)
          signals_emitted := st.signals_emitted + span.length }, true) := by
  subst hspan
  subst hs
  subst hi
  unfold undoOperation
  rw [if_neg (by omega)]
  dsimp only
  rw [execFold]

theorem redoOperation_of_lt (st : OperationList)
    (hlt : st.current_index < (st.operations.length : Int))
    (i e : Nat) (span : List Operation)
    (hi : i = st.current_index.toNat)
    (he : e = i + fwdLen (st.chainTags.drop i))
    (hspan : span = (st.operations.drop i).take (e + 1 - i)) :
    st.redoOperation =
      ({ st with
          model := (span.foldl poolModelSwap (st.model, st.pool_content)).1
          pool_content := (span.foldl poolModelSwap (st.model, st.pool_content)).2
          current_index := ((e + 1 : Nat) : Int)
          signals_emitted := st.signals_emitted + span.length }, true) := by
  subst hspan
  subst he
  subst hi
  unfold redoOperation
  rw [if_neg (by omega)]
  dsimp only
  rw [execFold]

theorem undoN_succ (st : OperationList) :
    ∀ n, undoN st (n + 1) = ((undoN st n).undoOperation).1 := by
  intro n
  induction n generalizing st with
  | zero => rfl
  | succ m ih =>
    show undoN (st.undoOperation).1 (m + 1) = _
    rw [ih (st.undoOperation).1]
    rfl

theorem registerObject_at_end_nochain (st : OperationList) (o k : Nat)
    (oi : Int) (p : Option Nat)
    (hend : st.current_index = (st.operations.length : Int))
    (hcap : st.operations.length < st.max_size)
    (hnc : st.next_op_chain = Operation.NO_CHAIN)
    (hig : st.ignore_chain = false) :
    st.registerObject o k oi p =
      { st with
        object_pool := st.object_pool ++ [st.next_pool_id]
        pool_content := setFn st.pool_content st.next_pool_id (st.model o)
        next_pool_id := st.next_pool_id + 1
        operations := st.operations ++
          [{ parent_obj := p
             pool_obj := some st.next_pool_id
             original_obj := some o
             xml_definition := ""
             op_type := k
             chain_type := Operation.NO_CHAIN
             object_idx := oi }]
        next_op_chain := Operation.NO_CHAIN
        current_index := ((st.operations.length + 1 : Nat) : Int) } := by
  rw [registerObject_at_end st o k oi p hend hcap]
  simp only [hig, hnc]
  norm_num
  decide

theorem undo_last_step (M st : OperationList) (o : Nat) (v : Option Nat)
    (opc : Operation) (tail : List Operation)
    (hopc_pool : opc.pool_obj = some st.next_pool_id)
    (hopc_orig : opc.original_obj = some o)
    (hopc_chain : opc.chain_type = Operation.NO_CHAIN)
    (hM_model : M.model = setFn st.model o v)
    (hM_idx : M.current_index = ((st.operations.length + 1 : Nat) : Int))
    (hM_ops : M.operations = (st.operations ++ [opc]) ++ tail)
    (hM_pool : ∀ h, h < st.next_pool_id + 1 →
        M.pool_content h = setFn st.pool_content st.next_pool_id (st.model o) h) :
    (M.undoOperation).2 = true
    ∧ (M.undoOperation).1.model = st.model
    ∧ (M.undoOperation).1.current_index = (st.operations.length : Int)
    ∧ (M.undoOperation).1.operations = M.operations
    ∧ (∀ h, h < st.next_pool_id →
        (M.undoOperation).1.pool_content h = st.pool_content h)
    ∧ (M.undoOperation).1.next_op_chain = M.next_op_chain
    ∧ (M.undoOperation).1.ignore_chain = M.ignore_chain := by
  have hpos : 0 < M.current_index := by
    rw [hM_idx]
    exact_mod_cast Nat.succ_pos st.operations.length
  have hi : st.operations.length = M.current_index.toNat - 1 := by
    rw [hM_idx]
    simp
  have htag : M.chainTags.getD st.operations.length Operation.NO_CHAIN
      = Operation.NO_CHAIN := by
    unfold chainTags
    rw [hM_ops, List.append_assoc, List.map_append]
    rw [List.getD_append_right _ _ _ _ (by simp)]
    simp [hopc_chain]
  have hs : st.operations.length
      = startOfChain M.chainTags st.operations.length := by
    have hrun := startOfChain_run M.chainTags st.operations.length
      (by rw [htag]; decide) 0 (by intro k hk hk'; omega)
    simpa using hrun.symm
  have hspan : ([opc] : List Operation) =
      (M.operations.drop (startOfChain M.chainTags st.operations.length)).take
        (st.operations.length + 1 - startOfChain M.chainTags st.operations.length) := by
    rw [← hs, hM_ops, List.append_assoc, List.drop_left,
      show st.operations.length + 1 - st.operations.length = 1 by omega]
    rfl
  have hu := undoOperation_of_pos M hpos st.operations.length
    (startOfChain M.chainTags st.operations.length) [opc] hi rfl hspan
  rw [← hs] at hu
  have hpool_p : M.pool_content st.next_pool_id = st.model o := by
    rw [hM_pool st.next_pool_id (by omega), setFn_self]
  have hswap : poolModelSwap (M.model, M.pool_content) opc
      = (setFn M.model o (M.pool_content st.next_pool_id),
         setFn M.pool_content st.next_pool_id (M.model o)) := by
    unfold poolModelSwap
    rw [hopc_pool, hopc_orig]
  rw [hu]
  refine ⟨rfl, ?_, rfl, rfl, ?_, rfl, rfl⟩
  · show (([opc] : List Operation).reverse.foldl poolModelSwap
      (M.model, M.pool_content)).1 = st.model
    show (poolModelSwap (M.model, M.pool_content) opc).1 = st.model
    rw [hswap]
    show setFn M.model o (M.pool_content st.next_pool_id) = st.model
    rw [hpool_p, hM_model, setFn_cancel]
  · intro h hh
    show (([opc] : List Operation).reverse.foldl poolModelSwap
      (M.model, M.pool_content)).2 h = st.pool_content h
    show (poolModelSwap (M.model, M.pool_content) opc).2 h = st.pool_content h
    rw [hswap]
    show setFn M.pool_content st.next_pool_id (M.model o) h = st.pool_content h
    rw [setFn_ne _ _ _ _ (by omega), hM_pool h (by omega),
      setFn_ne _ _ _ _ (by omega)]

theorem rt_aux :
    ∀ (script : List (RegCall × Option Nat)) (st : OperationList),
      st.current_index = (st.operations.length : Int) →
      st.next_op_chain = Operation.NO_CHAIN →
      st.ignore_chain = false →
      st.operations.length + script.length ≤ st.max_size →
      (undoN (regSteps st script) script.length).model = st.model
      ∧ (undoN (regSteps st script) script.length).current_index = st.current_index
      ∧ (∃ tail : List Operation,
          (undoN (regSteps st script) script.length).operations
            = st.operations ++ tail)
      ∧ (∀ h, h < st.next_pool_id →
          (undoN (regSteps st script) script.length).pool_content h
            = st.pool_content h)
      ∧ (undoN (regSteps st script) script.length).next_op_chain
          = Operation.NO_CHAIN
      ∧ (undoN (regSteps st script) script.length).ignore_chain = false := by
  intro script
  induction script with
  | nil =>
    intro st hend hnc hig hcap
    exact ⟨rfl, rfl, ⟨[], (List.append_nil _).symm⟩, fun h _ => rfl, hnc, hig⟩
  | cons cv rest ih =>
    obtain ⟨c, v⟩ := cv
    intro st hend hnc hig hcap
    have hcap1 : st.operations.length < st.max_size := by
      simp only [List.length_cons] at hcap
      omega
    have hreg := registerObject_at_end_nochain st c.obj c.op_type c.object_idx
      c.parent hend hcap1 hnc hig
    have hR : regStep st (c, v) =
        { st with
          object_pool := st.object_pool ++ [st.next_pool_id]
          pool_content := setFn st.pool_content st.next_pool_id (st.model c.obj)
          next_pool_id := st.next_pool_id + 1
          operations := st.operations ++
            [{ parent_obj := c.parent
               pool_obj := some st.next_pool_id
               original_obj := some c.obj
               xml_definition := ""
               op_type := c.op_type
               chain_type := Operation.NO_CHAIN
               object_idx := c.object_idx }]
          next_op_chain := Operation.NO_CHAIN
          current_index := ((st.operations.length + 1 : Nat) : Int)
          model := setFn st.model c.obj v } := by
      show (st.registerObject c.obj c.op_type c.object_idx c.parent).mutateObject
        c.obj v = _
      rw [hreg]
      rfl
    have hsteps : regSteps st ((c, v) :: rest) = regSteps (regStep st (c, v)) rest := rfl
    have hlen : ((c, v) :: rest).length = rest.length + 1 := rfl
    rw [hsteps, hlen, hR, undoN_succ]
    have ihh := ih { st with
          object_pool := st.object_pool ++ [st.next_pool_id]
          pool_content := setFn st.pool_content st.next_pool_id (st.model c.obj)
          next_pool_id := st.next_pool_id + 1
          operations := st.operations ++
            [{ parent_obj := c.parent
               pool_obj := some st.next_pool_id
               original_obj := some c.obj
               xml_definition := ""
               op_type := c.op_type
               chain_type := Operation.NO_CHAIN
               object_idx := c.object_idx }]
          next_op_chain := Operation.NO_CHAIN
          current_index := ((st.operations.length + 1 : Nat) : Int)
          model := setFn st.model c.obj v }
      (by dsimp only; rw [List.length_append]; rfl)
      rfl hig
      (by dsimp only; rw [List.length_append]; simp only [List.length_cons] at hcap; simp; omega)
    obtain ⟨hmidM, hmidI, ⟨tail, htail⟩, hmidP, hmidC, hmidG⟩ := ihh
    dsimp only at hmidM hmidI htail hmidP hmidC hmidG
    obtain ⟨hu2, huM, huI, huO, huP, huC, huG⟩ :=
      undo_last_step _ st c.obj v _ tail rfl rfl rfl hmidM hmidI htail hmidP
    refine ⟨huM, ?_, ?_, ?_, huC.trans hmidC, huG.trans hmidG⟩
    · rw [huI, hend]
    · refine ⟨({ parent_obj := c.parent
                 pool_obj := some st.next_pool_id
                 original_obj := some c.obj
                 xml_definition := ""
                 op_type := c.op_type
                 chain_type := Operation.NO_CHAIN
                 object_idx := c.object_idx } : Operation) :: tail, ?_⟩
      rw [huO, htail, List.append_assoc]
      rfl
    · intro h hh
      exact huP h hh

theorem truncateRedo_fields (st : OperationList) :
    (truncateRedo st).operations
        = st.operations.take (min st.current_index.toNat st.operations.length)
    ∧ (truncateRedo st).current_index
        = ((min st.current_index.toNat st.operations.length : Nat) : Int)
    ∧ (truncateRedo st).model = st.model
    ∧ (truncateRedo st).next_pool_id = st.next_pool_id
    ∧ (truncateRedo st).next_op_chain = st.next_op_chain
    ∧ (truncateRedo st).ignore_chain = st.ignore_chain
    ∧ (truncateRedo st).max_size = st.max_size
    ∧ (truncateRedo st).pool_content
        = (releaseOps
            { st with
              operations :=
                st.operations.take (min st.current_index.toNat st.operations.length)
              current_index :=
                ((min st.current_index.toNat st.operations.length : Nat) : Int) }
            (st.operations.drop
              (min st.current_index.toNat st.operations.length))).pool_content := by
  unfold truncateRedo
  obtain ⟨m, o, c, n, nc, ic, ms, sg, nr⟩ := releaseOps_fields
    (st.operations.drop (min st.current_index.toNat st.operations.length))
    { st with
      operations :=
        st.operations.take (min st.current_index.toNat st.operations.length)
      current_index :=
        ((min st.current_index.toNat st.operations.length : Nat) : Int) }
  exact ⟨o, c, m, n, nc, ic, ms, rfl⟩

theorem truncateRedo_at_end (st : OperationList) :
    (truncateRedo st).current_index
      = ((truncateRedo st).operations.length : Int) := by
  obtain ⟨o, c, _, _, _, _, _, _⟩ := truncateRedo_fields st
  rw [o, c, List.length_take]
  simp

theorem registerObject_trunc (st : OperationList) (o k : Nat) (oi : Int)
    (p : Option Nat) :
    st.registerObject o k oi p = (truncateRedo st).registerObject o k oi p := by
  show st.registerObject o k oi p = _
  unfold registerObject
  rw [truncateRedo_of_at_end (truncateRedo st) (truncateRedo_at_end st)]

/-! ### Claim theorems -/

/-- **C1** — Round-trip (spec §8): for every sequence of `n` `registerObject`
calls (each immediately preceding the caller's corresponding model mutation)
followed by `n` `undoOperation` calls, the live model's observable state
after the `n` undos equals its state before the first registration.  Stated
for any starting state with a valid cursor, no open operation chain, and
enough remaining capacity that the `n` registrations evict no history. -/
theorem c1_register_undo_round_trip (st : OperationList)
    (script : List (RegCall × Option Nat))
    (hInv : st.CursorInv)
    (hnc : st.next_op_chain = Operation.NO_CHAIN)
    (hig : st.ignore_chain = false)
    (hcap : st.current_index.toNat + script.length ≤ st.max_size) :
    ∀ obj, (undoN (regSteps st script) script.length).model obj
      = st.model obj := by
  intro obj
  cases script with
  | nil => rfl
  | cons cv rest =>
    obtain ⟨ho, hc, hm, hn, hncf, higf, hms, _⟩ := truncateRedo_fields st
    have h1 : regSteps st (cv :: rest)
        = regSteps (truncateRedo st) (cv :: rest) := by
      show regSteps (regStep st cv) rest
        = regSteps (regStep (truncateRedo st) cv) rest
      congr 1
      show (st.registerObject cv.1.obj cv.1.op_type cv.1.object_idx
          cv.1.parent).mutateObject cv.1.obj cv.2 = _
      rw [registerObject_trunc]
      rfl
    have hmain := rt_aux (cv :: rest) (truncateRedo st) (truncateRedo_at_end st)
      (by rw [hncf, hnc]) (by rw [higf, hig])
      (by
        rw [ho, hms, List.length_take]
        obtain ⟨hi0, hile⟩ := hInv
        omega)
    rw [h1, hmain.1, hm]

/-- Witness for C1: two registrations (a modification of object 0, then a
removal of object 1), each followed by its mutation, then two undos, from a
fresh history over a two-object model. -/
theorem c1_register_undo_round_trip_witness :
    (OperationList.init 10
        (fun i => if i = 0 then some 1 else if i = 1 then some 2 else none)).CursorInv
    ∧ (∀ obj,
        (undoN
          (regSteps
            (OperationList.init 10
              (fun i => if i = 0 then some 1 else if i = 1 then some 2 else none))
            [(⟨0, Operation.OBJECT_MODIFIED, -1, none⟩, some 5),
             (⟨1, Operation.OBJECT_REMOVED, -1, none⟩, none)]) 2).model obj
        = (OperationList.init 10
            (fun i => if i = 0 then some 1 else if i = 1 then some 2 else none)).model obj) :=
  ⟨by decide,
   c1_register_undo_round_trip _ _ (by decide) rfl rfl (by decide)⟩

/-- **C3** — Redo-branch truncation (spec §3, §8): a `registerObject` call
made while `currentIndex < size` discards every operation at indices
`≥ currentIndex`, appends the new operation, and leaves the cursor at the
new end of the shortened history.  Stated in the absence of a capacity
eviction (`currentIndex < max_size`). -/
theorem c3_redo_branch_truncation (st : OperationList) (o k : Nat) (oi : Int)
    (p : Option Nat)
    (h0 : 0 ≤ st.current_index)
    (hlt : st.current_index < (st.operations.length : Int))
    (hcap : st.current_index.toNat < st.max_size) :
    (st.registerObject o k oi p).operations
      = st.operations.take st.current_index.toNat ++
        [{ parent_obj := p
           pool_obj := some st.next_pool_id
           original_obj := some o
           xml_definition := ""
           op_type := k
           chain_type :=
             if st.ignore_chain then Operation.NO_CHAIN else st.next_op_chain
           object_idx := oi }]
    ∧ (st.registerObject o k oi p).current_index = st.current_index + 1
    ∧ (st.registerObject o k oi p).current_index
        = ((st.registerObject o k oi p).operations.length : Int) := by
  obtain ⟨ho, hc, hm, hn, hncf, higf, hms, _⟩ := truncateRedo_fields st
  have hmin : min st.current_index.toNat st.operations.length
      = st.current_index.toNat := by omega
  have hat := registerObject_at_end (truncateRedo st) o k oi p
    (truncateRedo_at_end st)
    (by rw [ho, hms, List.length_take]; omega)
  rw [registerObject_trunc st o k oi p, hat]
  dsimp only
  rw [ho, hn, hncf, higf, hmin, List.length_take, hmin, List.length_append,
    List.length_take, hmin]
  refine ⟨rfl, by omega, by simp⟩

/-- Witness for C3, replaying the spec's example: register A, B, C
(cursor 3), undo twice (cursor 1), then register D; the surviving history
is [A, D] with cursor 2. -/
theorem c3_redo_branch_truncation_witness :
    (((undoN
        (applyRegs (OperationList.init 10 (fun _ => some 0))
          [⟨0, Operation.OBJECT_MODIFIED, -1, none⟩,
           ⟨1, Operation.OBJECT_MODIFIED, -1, none⟩,
           ⟨2, Operation.OBJECT_MODIFIED, -1, none⟩]) 2).registerObject 3
        Operation.OBJECT_MODIFIED (-1) none).operations.map (·.original_obj)
      = [some 0, some 3])
    ∧ ((undoN
        (applyRegs (OperationList.init 10 (fun _ => some 0))
          [⟨0, Operation.OBJECT_MODIFIED, -1, none⟩,
           ⟨1, Operation.OBJECT_MODIFIED, -1, none⟩,
           ⟨2, Operation.OBJECT_MODIFIED, -1, none⟩]) 2).registerObject 3
        Operation.OBJECT_MODIFIED (-1) none).current_index
      = (undoN
        (applyRegs (OperationList.init 10 (fun _ => some 0))
          [⟨0, Operation.OBJECT_MODIFIED, -1, none⟩,
           ⟨1, Operation.OBJECT_MODIFIED, -1, none⟩,
           ⟨2, Operation.OBJECT_MODIFIED, -1, none⟩]) 2).current_index + 1 :=
  ⟨by decide,
   (c3_redo_branch_truncation _ 3 Operation.OBJECT_MODIFIED (-1) none
     (by decide) (by decide) (by decide)).2.1⟩

/-- **C7** — Invariant-violation atomicity (spec §7): an `undoOperation`
call with no undo available (`currentIndex = 0`) and a `redoOperation` call
with no redo available (`currentIndex = size`) fail — the success flag is
`false`, the availability query is `false`, and the returned state is the
argument state itself: model, history list and cursor are all unchanged. -/
theorem c7_unavailable_undo_redo_fail (st : OperationList) :
    (st.current_index = 0 →
      st.undoOperation = (st, false) ∧ st.isUndoAvailable = false)
    ∧ (st.current_index = (st.operations.length : Int) →
      st.redoOperation = (st, false) ∧ st.isRedoAvailable = false) := by
  constructor
  · intro h
    constructor
    · unfold undoOperation
      rw [if_pos (by omega)]
    · unfold isUndoAvailable
      simp [h]
  · intro h
    constructor
    · unfold redoOperation
      rw [if_pos (by omega)]
    · unfold isRedoAvailable
      simp [h]

/-- Witness for C7: on a fresh empty history both cursor conditions hold,
and both calls fail leaving the state untouched. -/
theorem c7_unavailable_undo_redo_fail_witness :
    (OperationList.init 5 (fun _ => none)).undoOperation
        = (OperationList.init 5 (fun _ => none), false)
    ∧ (OperationList.init 5 (fun _ => none)).redoOperation
        = (OperationList.init 5 (fun _ => none), false) :=
  ⟨((c7_unavailable_undo_redo_fail (OperationList.init 5 (fun _ => none))).1 rfl).1,
   ((c7_unavailable_undo_redo_fail (OperationList.init 5 (fun _ => none))).2 rfl).1⟩

/-- **C9** — Uninitialized operation kind: the default `Operation`
constructor (header lines 77-79) initializes `parent_obj`, `pool_obj`,
`original_obj`, `object_idx` and `chain_type` but not `op_type`, so a
default-constructed record's `op_type` is whatever value the underlying
memory held (`mem_op_type`), not a fixed safe default: two different
memory residues yield two different observed kinds. -/
theorem c9_default_ctor_op_type_indeterminate :
    (∀ u : Nat,
      (Operation.init u).parent_obj = none
      ∧ (Operation.init u).pool_obj = none
      ∧ (Operation.init u).original_obj = none
      ∧ (Operation.init u).object_idx = -1
      ∧ (Operation.init u).chain_type = Operation.NO_CHAIN
      ∧ (Operation.init u).op_type = u)
    ∧ (Operation.init 0).op_type ≠ (Operation.init 1).op_type :=
  ⟨fun u => ⟨rfl, rfl, rfl, rfl, rfl, rfl⟩, by decide⟩

/-- **C10 counterexample** — the claim "`updateObjectIndex` always leaves a
non-negative `object_idx` on every operation referencing the object, and can
never restore the `-1` sentinel" is false: passing `new_idx = 2^32 - 1`
(a legal `unsigned` value) through the `unsigned → int` narrowing stores
exactly `-1`. -/
theorem c10_sentinel_exclusion_counterexample :
    ¬(∀ op ∈ (((OperationList.init 4 (fun _ => none)).registerObject 0
          Operation.OBJECT_MODIFIED 5 none).updateObjectIndex 0
          (2 ^ 32 - 1)).operations,
        op.original_obj = some 0 → 0 ≤ op.object_idx) := by
  decide

/-- **C10 (amended)** — for every `new_idx` below `2^31`, an
`updateObjectIndex` call leaves every operation referencing the given
object with `object_idx = new_idx ≥ 0`; values `≥ 2^31` wrap to negative
`int`s under the declared `unsigned new_idx` → `int object_idx` narrowing,
and `new_idx = 2^32 - 1` restores the `-1` sentinel. -/
theorem c10_update_object_index_small (st : OperationList)
    (object new_idx : Nat) (hsmall : new_idx < 2 ^ 31) :
    ∀ op ∈ (st.updateObjectIndex object new_idx).operations,
      op.original_obj = some object →
        op.object_idx = (new_idx : Int) ∧ 0 ≤ op.object_idx := by
  intro op hop hobj
  unfold updateObjectIndex at hop
  simp only [List.mem_map] at hop
  obtain ⟨op0, hop0, rfl⟩ := hop
  by_cases h : op0.original_obj = some object
  · simp only [h, if_true]
    have hm : new_idx % 2 ^ 32 = new_idx := Nat.mod_eq_of_lt (by omega)
    constructor
    · show intOfUnsigned new_idx = (new_idx : Int)
      unfold intOfUnsigned
      rw [hm, if_pos (by omega)]
    · show (0 : Int) ≤ intOfUnsigned new_idx
      unfold intOfUnsigned
      rw [hm, if_pos (by omega)]
      omega
  · rw [if_neg h] at hobj
    exact absurd hobj h

/-- Witness for the amended C10: updating the index of object 0 to 7 in a
one-operation history yields `object_idx = 7`. -/
theorem c10_update_object_index_small_witness :
    (7 : Nat) < 2 ^ 31
    ∧ (⟨none, some 0, some 0, "", Operation.OBJECT_MODIFIED,
        Operation.NO_CHAIN, 7⟩ : Operation).object_idx = ((7 : Nat) : Int)
    ∧ (0 : Int) ≤ (⟨none, some 0, some 0, "", Operation.OBJECT_MODIFIED,
        Operation.NO_CHAIN, 7⟩ : Operation).object_idx := by
  refine ⟨by decide, ?_, ?_⟩
  · exact (c10_update_object_index_small
      ((OperationList.init 4 (fun _ => none)).registerObject 0
        Operation.OBJECT_MODIFIED 5 none) 0 7 (by decide) _ (by decide) rfl).1
  · exact (c10_update_object_index_small
      ((OperationList.init 4 (fun _ => none)).registerObject 0
        Operation.OBJECT_MODIFIED 5 none) 0 7 (by decide) _ (by decide) rfl).2

/-- **C8** — Cursor-bounds invariant: every public operation of
`OperationList` preserves `0 ≤ current_index ≤ operations.size()`, and under
that invariant `getCurrentIndex` returns a value that is neither negative
nor past `getCurrentSize`. -/
theorem c8_cursor_bounds_invariant (st : OperationList) (o k : Nat) (oi : Int)
    (p : Option Nat) (b : Bool) (hInv : st.CursorInv) :
    (st.registerObject o k oi p).CursorInv
    ∧ (st.undoOperation).1.CursorInv
    ∧ (st.redoOperation).1.CursorInv
    ∧ st.removeOperations.CursorInv
    ∧ st.removeLastOperation.CursorInv
    ∧ st.startOperationChain.CursorInv
    ∧ st.finishOperationChain.CursorInv
    ∧ (st.ignoreOperationChain b).CursorInv
    ∧ (∀ s : OperationList, s.CursorInv →
        0 ≤ s.getCurrentIndex ∧ s.getCurrentIndex ≤ (s.getCurrentSize : Int)) := by
  obtain ⟨hge, hle⟩ := hInv
  refine ⟨?_, ?_, ?_, ?_, ?_, ?_, ?_, ⟨hge, hle⟩, fun s hs => hs⟩
  · unfold registerObject CursorInv
    dsimp only
    rw [List.length_append]
    constructor
    · omega
    · simp
  · by_cases hpos : st.current_index ≤ 0
    · unfold undoOperation
      rw [if_pos hpos]
      exact ⟨hge, hle⟩
    · have hu := undoOperation_of_pos st (by omega)
        (st.current_index.toNat - 1)
        (startOfChain st.chainTags (st.current_index.toNat - 1))
        ((st.operations.drop
            (startOfChain st.chainTags (st.current_index.toNat - 1))).take
          (st.current_index.toNat - 1 + 1
            - startOfChain st.chainTags (st.current_index.toNat - 1)))
        rfl rfl rfl
      rw [hu]
      have hsle := startOfChain_le st.chainTags (st.current_index.toNat - 1)
      unfold CursorInv
      dsimp only
      omega
  · by_cases hred : (st.operations.length : Int) ≤ st.current_index
    · unfold redoOperation
      rw [if_pos hred]
      exact ⟨hge, hle⟩
    · have hr := redoOperation_of_lt st (by omega)
        st.current_index.toNat
        (st.current_index.toNat
          + fwdLen (st.chainTags.drop st.current_index.toNat))
        ((st.operations.drop st.current_index.toNat).take
          (st.current_index.toNat
            + fwdLen (st.chainTags.drop st.current_index.toNat) + 1
            - st.current_index.toNat))
        rfl rfl rfl
      rw [hr]
      have htlen : st.chainTags.length = st.operations.length :=
        List.length_map _ _
      have hne : st.chainTags.drop st.current_index.toNat ≠ [] := by
        intro hnil
        have := congrArg List.length hnil
        rw [List.length_drop, htlen] at this
        simp at this
        omega
      have hflt := fwdLen_lt_length _ hne
      rw [List.length_drop, htlen] at hflt
      unfold CursorInv
      dsimp only
      omega
  · unfold removeOperations CursorInv
    dsimp only
    simp
  · unfold removeLastOperation
    split
    · exact ⟨hge, hle⟩
    · next op rest heq =>
      obtain ⟨_, ho, hc, _, _, _, _, _, _⟩ := releaseOps_fields
        (st.operations.drop
          (startOfChain st.chainTags (st.operations.length - 1)))
        { st with
          operations := st.operations.take
            (startOfChain st.chainTags (st.operations.length - 1))
          current_index := min st.current_index
            ((startOfChain st.chainTags (st.operations.length - 1) : Nat) : Int) }
      unfold CursorInv
      rw [ho, hc]
      dsimp only
      have hsle := startOfChain_le st.chainTags (st.operations.length - 1)
      have hpos : 0 < st.operations.length := by rw [heq]; simp
      rw [List.length_take]
      omega
  · unfold startOperationChain
    split
    · exact ⟨hge, hle⟩
    · exact ⟨hge, hle⟩
  · unfold finishOperationChain
    split
    · exact ⟨hge, hle⟩
    · next last heq =>
      have hne : st.operations ≠ [] := by
        intro hnil
        rw [hnil] at heq
        exact Option.noConfusion heq
      have hpos : 0 < st.operations.length := List.length_pos.mpr hne
      split
      · unfold CursorInv
        dsimp only
        rw [List.length_append, List.length_dropLast]
        simp only [List.length_cons, List.length_nil]
        omega
      · split
        · unfold CursorInv
          dsimp only
          rw [List.length_append, List.length_dropLast]
          simp only [List.length_cons, List.length_nil]
          omega
        · exact ⟨hge, hle⟩

/-- Witness for C8: registering into a fresh history keeps the cursor in
bounds. -/
theorem c8_cursor_bounds_invariant_witness :
    ((OperationList.init 5 (fun _ => none)).registerObject 0
      Operation.OBJECT_CREATED (-1) none).CursorInv :=
  (c8_cursor_bounds_invariant (OperationList.init 5 (fun _ => none)) 0
    Operation.OBJECT_CREATED (-1) none true (by decide)).1

/-- **C6** — `removeLastOperation` on a history whose last entry closes a
2-entry chain removes the entire chain, restores the cursor to the
pre-chain value, and leaves the live model untouched (no reversal is
executed, and no progress signal is emitted). -/
theorem c6_remove_last_operation_chain (st : OperationList)
    (base : List Operation) (a bop : Operation)
    (hops : st.operations = base ++ [a, bop])
    (ha : a.chain_type = Operation.CHAIN_START)
    (hb : bop.chain_type = Operation.CHAIN_END)
    (hidx : st.current_index = ((base.length + 2 : Nat) : Int)) :
    st.removeLastOperation.operations = base
    ∧ st.removeLastOperation.current_index = (base.length : Int)
    ∧ st.removeLastOperation.model = st.model
    ∧ st.removeLastOperation.signals_emitted = st.signals_emitted := by
  have hlen : st.operations.length = base.length + 2 := by
    rw [hops, List.length_append]
    rfl
  have htags : st.chainTags = base.map (·.chain_type)
      ++ [Operation.CHAIN_START, Operation.CHAIN_END] := by
    unfold chainTags
    rw [hops, List.map_append]
    simp [ha, hb]
  have h1 : st.chainTags.getD base.length Operation.NO_CHAIN
      = Operation.CHAIN_START := by
    rw [htags, List.getD_append_right _ _ _ _ (by simp)]
    simp
  have h2 : st.chainTags.getD (base.length + 1) Operation.NO_CHAIN
      = Operation.CHAIN_END := by
    rw [htags, List.getD_append_right _ _ _ _ (by simp)]
    simp
  have hstart : startOfChain st.chainTags (st.operations.length - 1)
      = base.length := by
    rw [hlen]
    have hrun := startOfChain_run st.chainTags base.length
      (by rw [h1]; decide) 1
      (by
        intro kk hk1 hk2
        have hkk : kk = base.length + 1 := by omega
        subst hkk
        exact Or.inr h2)
    show startOfChain st.chainTags (base.length + 2 - 1) = base.length
    rw [show base.length + 2 - 1 = base.length + 1 by omega]
    exact hrun
  unfold removeLastOperation
  split
  · next heq =>
    rw [hops] at heq
    simp at heq
  · next x xs heq =>
    dsimp only
    obtain ⟨rm, ro, rc, _, _, _, _, rs, _⟩ := releaseOps_fields
      (st.operations.drop (startOfChain st.chainTags (st.operations.length - 1)))
      { st with
        operations := st.operations.take
          (startOfChain st.chainTags (st.operations.length - 1))
        current_index := min st.current_index
          ((startOfChain st.chainTags (st.operations.length - 1) : Nat) : Int) }
    refine ⟨?_, ?_, rm, rs⟩
    · rw [ro]
      dsimp only
      rw [hstart, hops]
      exact List.take_left base [a, bop]
    · rw [rc]
      dsimp only
      rw [hstart, hidx]
      omega

/-- Witness for C6: a concrete history [A] followed by a finished 2-entry
chain [B, C]; removing the last operation drops the whole chain and puts
the cursor back to 1. -/
theorem c6_remove_last_operation_chain_witness :
    ((applyRegs
        ((applyRegs (OperationList.init 10 (fun _ => some 0))
          [⟨0, Operation.OBJECT_MODIFIED, -1, none⟩]).startOperationChain)
        [⟨1, Operation.OBJECT_MODIFIED, -1, none⟩,
         ⟨2, Operation.OBJECT_MODIFIED, -1, none⟩]).finishOperationChain).removeLastOperation.operations
      = [⟨none, some 0, some 0, "", Operation.OBJECT_MODIFIED,
          Operation.NO_CHAIN, -1⟩]
    ∧ ((applyRegs
        ((applyRegs (OperationList.init 10 (fun _ => some 0))
          [⟨0, Operation.OBJECT_MODIFIED, -1, none⟩]).startOperationChain)
        [⟨1, Operation.OBJECT_MODIFIED, -1, none⟩,
         ⟨2, Operation.OBJECT_MODIFIED, -1, none⟩]).finishOperationChain).removeLastOperation.current_index
      = ((([⟨none, some 0, some 0, "", Operation.OBJECT_MODIFIED,
          Operation.NO_CHAIN, -1⟩] : List Operation).length : Nat) : Int) :=
  ⟨(c6_remove_last_operation_chain _
      [⟨none, some 0, some 0, "", Operation.OBJECT_MODIFIED,
        Operation.NO_CHAIN, -1⟩]
      ⟨none, some 1, some 1, "", Operation.OBJECT_MODIFIED,
        Operation.CHAIN_START, -1⟩
      ⟨none, some 2, some 2, "", Operation.OBJECT_MODIFIED,
        Operation.CHAIN_END, -1⟩
      (by decide) rfl rfl (by decide)).1,
   (c6_remove_last_operation_chain _
      [⟨none, some 0, some 0, "", Operation.OBJECT_MODIFIED,
        Operation.NO_CHAIN, -1⟩]
      ⟨none, some 1, some 1, "", Operation.OBJECT_MODIFIED,
        Operation.CHAIN_START, -1⟩
      ⟨none, some 2, some 2, "", Operation.OBJECT_MODIFIED,
        Operation.CHAIN_END, -1⟩
      (by decide) rfl rfl (by decide)).2.1⟩

theorem registerObject_at_end_fields (st : OperationList) (o k : Nat)
    (oi : Int) (p : Option Nat)
    (hend : st.current_index = (st.operations.length : Int))
    (hcap : st.operations.length < st.max_size) :
    (st.registerObject o k oi p).operations = st.operations ++
      [⟨p, some st.next_pool_id, some o, "", k,
        (if st.ignore_chain then Operation.NO_CHAIN else st.next_op_chain), oi⟩]
    ∧ (st.registerObject o k oi p).current_index
        = ((st.operations.length + 1 : Nat) : Int)
    ∧ (st.registerObject o k oi p).signals_emitted = st.signals_emitted
    ∧ (st.registerObject o k oi p).next_op_chain =
        (if ¬st.ignore_chain ∧ st.next_op_chain = Operation.CHAIN_START then
          Operation.CHAIN_MIDDLE
        else st.next_op_chain)
    ∧ (st.registerObject o k oi p).ignore_chain = st.ignore_chain
    ∧ (st.registerObject o k oi p).max_size = st.max_size
    ∧ (st.registerObject o k oi p).next_pool_id = st.next_pool_id + 1 := by
  rw [registerObject_at_end st o k oi p hend hcap]
  exact ⟨rfl, rfl, rfl, rfl, rfl, rfl, rfl⟩

theorem finishOperationChain_mid (st : OperationList) (X : List Operation)
    (last : Operation) (hops : st.operations = X ++ [last])
    (hmid : last.chain_type = Operation.CHAIN_MIDDLE) :
    st.finishOperationChain =
      { st with
        operations := X ++ [{ last with chain_type := Operation.CHAIN_END }]
        next_op_chain := Operation.NO_CHAIN } := by
  unfold finishOperationChain
  rw [show st.operations.getLast? = some last by
    rw [hops]; exact List.getLast?_concat _]
  dsimp only
  rw [if_pos hmid, hops]
  rw [List.dropLast_concat]

theorem chain3_shape (st : OperationList) (c1 c2 c3 : RegCall)
    (hend : st.current_index = (st.operations.length : Int))
    (hnc : st.next_op_chain = Operation.NO_CHAIN)
    (hig : st.ignore_chain = false)
    (hcap : st.operations.length + 3 ≤ st.max_size) :
    ((((st.startOperationChain.registerObject c1.obj c1.op_type c1.object_idx
          c1.parent).registerObject c2.obj c2.op_type c2.object_idx
          c2.parent).registerObject c3.obj c3.op_type c3.object_idx
          c3.parent).finishOperationChain).operations
      = st.operations ++
        [⟨c1.parent, some st.next_pool_id, some c1.obj, "", c1.op_type,
          Operation.CHAIN_START, c1.object_idx⟩,
         ⟨c2.parent, some (st.next_pool_id + 1), some c2.obj, "", c2.op_type,
          Operation.CHAIN_MIDDLE, c2.object_idx⟩,
         ⟨c3.parent, some (st.next_pool_id + 2), some c3.obj, "", c3.op_type,
          Operation.CHAIN_END, c3.object_idx⟩]
    ∧ ((((st.startOperationChain.registerObject c1.obj c1.op_type c1.object_idx
          c1.parent).registerObject c2.obj c2.op_type c2.object_idx
          c2.parent).registerObject c3.obj c3.op_type c3.object_idx
          c3.parent).finishOperationChain).current_index
        = ((st.operations.length + 3 : Nat) : Int)
    ∧ ((((st.startOperationChain.registerObject c1.obj c1.op_type c1.object_idx
          c1.parent).registerObject c2.obj c2.op_type c2.object_idx
          c2.parent).registerObject c3.obj c3.op_type c3.object_idx
          c3.parent).finishOperationChain).signals_emitted
        = st.signals_emitted := by
  have h0 : st.startOperationChain
      = { st with next_op_chain := Operation.CHAIN_START } := by
    unfold startOperationChain
    rw [if_neg (by rw [hnc]; simp)]
  have e1 : st.startOperationChain.operations = st.operations := by rw [h0]
  have e2 : st.startOperationChain.current_index = st.current_index := by rw [h0]
  have e3 : st.startOperationChain.next_op_chain = Operation.CHAIN_START := by
    rw [h0]
  have e4 : st.startOperationChain.ignore_chain = false := by rw [h0]; exact hig
  have e5 : st.startOperationChain.max_size = st.max_size := by rw [h0]
  have e6 : st.startOperationChain.next_pool_id = st.next_pool_id := by rw [h0]
  have e7 : st.startOperationChain.signals_emitted = st.signals_emitted := by
    rw [h0]
  obtain ⟨f1, f2, f3, f4, f5, f6, f7⟩ := registerObject_at_end_fields
    st.startOperationChain c1.obj c1.op_type c1.object_idx c1.parent
    (by rw [e2, e1, hend]) (by rw [e1, e5]; omega)
  rw [e1, e3, e4, e6] at f1
  rw [e1] at f2
  rw [e7] at f3
  rw [e3, e4] at f4
  rw [e4] at f5
  rw [e5] at f6
  rw [e6] at f7
  rw [if_neg (by decide)] at f1
  rw [if_pos (by decide)] at f4
  obtain ⟨g1, g2, g3, g4, g5, g6, g7⟩ := registerObject_at_end_fields
    (st.startOperationChain.registerObject c1.obj c1.op_type c1.object_idx
      c1.parent) c2.obj c2.op_type c2.object_idx c2.parent
    (by rw [f2, f1]; simp only [List.length_append, List.length_cons,
      List.length_nil])
    (by rw [f1, f6]; simp only [List.length_append, List.length_cons,
      List.length_nil]; omega)
  rw [f1, f4, f5, f7] at g1
  rw [f1] at g2
  rw [f3] at g3
  rw [f4, f5] at g4
  rw [f5] at g5
  rw [f6] at g6
  rw [f7] at g7
  rw [if_neg (by decide)] at g1
  rw [if_neg (by decide)] at g4
  obtain ⟨k1, k2, k3, k4, k5, k6, k7⟩ := registerObject_at_end_fields
    ((st.startOperationChain.registerObject c1.obj c1.op_type c1.object_idx
      c1.parent).registerObject c2.obj c2.op_type c2.object_idx c2.parent)
    c3.obj c3.op_type c3.object_idx c3.parent
    (by rw [g2, g1]; simp only [List.length_append, List.length_cons,
      List.length_nil])
    (by rw [g1, g6]; simp only [List.length_append, List.length_cons,
      List.length_nil]; omega)
  rw [g1, g4, g5, g7] at k1
  rw [g1] at k2
  rw [g3] at k3
  rw [if_neg (by decide)] at k1
  have hfin := finishOperationChain_mid
    (((st.startOperationChain.registerObject c1.obj c1.op_type c1.object_idx
        c1.parent).registerObject c2.obj c2.op_type c2.object_idx
        c2.parent).registerObject c3.obj c3.op_type c3.object_idx c3.parent)
    ((st.operations ++
        [⟨c1.parent, some st.next_pool_id, some c1.obj, "", c1.op_type,
          Operation.CHAIN_START, c1.object_idx⟩]) ++
      [⟨c2.parent, some (st.next_pool_id + 1), some c2.obj, "", c2.op_type,
        Operation.CHAIN_MIDDLE, c2.object_idx⟩])
    ⟨c3.parent, some (st.next_pool_id + 2), some c3.obj, "", c3.op_type,
      Operation.CHAIN_MIDDLE, c3.object_idx⟩
    k1 rfl
  rw [hfin]
  refine ⟨?_, ?_, ?_⟩
  · dsimp only
    simp [List.append_assoc]
  · dsimp only
    rw [k2]
    simp only [List.length_append, List.length_cons, List.length_nil]
  · dsimp only
    rw [k3]

/-- **C4** — Chain atomicity: a chain of 3 registrations bounded by
`startOperationChain`/`finishOperationChain` undoes and redoes as a single
step: the single `undoOperation` call succeeds, processes all 3 operations
(3 progress signals), and moves the cursor back by exactly 3; after it,
`isUndoAvailable` is `false` iff no further history precedes the chain;
the single `redoOperation` call then processes all 3 operations again and
moves the cursor forward by exactly 3. -/
theorem c4_chain_atomicity (st stC : OperationList) (c1 c2 c3 : RegCall)
    (hstC : stC =
      (((st.startOperationChain.registerObject c1.obj c1.op_type c1.object_idx
          c1.parent).registerObject c2.obj c2.op_type c2.object_idx
          c2.parent).registerObject c3.obj c3.op_type c3.object_idx
          c3.parent).finishOperationChain)
    (hend : st.current_index = (st.operations.length : Int))
    (hnc : st.next_op_chain = Operation.NO_CHAIN)
    (hig : st.ignore_chain = false)
    (hcap : st.operations.length + 3 ≤ st.max_size) :
    stC.current_index = st.current_index + 3
    ∧ (stC.undoOperation).2 = true
    ∧ (stC.undoOperation).1.current_index = stC.current_index - 3
    ∧ (stC.undoOperation).1.signals_emitted = stC.signals_emitted + 3
    ∧ ((stC.undoOperation).1.isUndoAvailable = false ↔ st.operations = [])
    ∧ ((stC.undoOperation).1.redoOperation).2 = true
    ∧ ((stC.undoOperation).1.redoOperation).1.current_index = stC.current_index
    ∧ ((stC.undoOperation).1.redoOperation).1.signals_emitted
        = stC.signals_emitted + 6 := by
  obtain ⟨hops, hidx, hsig⟩ := chain3_shape st c1 c2 c3 hend hnc hig hcap
  rw [← hstC] at hops hidx hsig
  have hmaplen : st.chainTags.length = st.operations.length :=
    List.length_map _ _
  have htags : stC.chainTags = st.chainTags ++
      [Operation.CHAIN_START, Operation.CHAIN_MIDDLE, Operation.CHAIN_END] := by
    show stC.operations.map (·.chain_type) = _
    rw [hops, List.map_append]
    rfl
  have ht0 : stC.chainTags.getD st.operations.length Operation.NO_CHAIN
      = Operation.CHAIN_START := by
    rw [htags, List.getD_append_right _ _ _ _ (by omega), hmaplen]
    simp
  have ht1 : stC.chainTags.getD (st.operations.length + 1) Operation.NO_CHAIN
      = Operation.CHAIN_MIDDLE := by
    rw [htags, List.getD_append_right _ _ _ _ (by omega), hmaplen,
      show st.operations.length + 1 - st.operations.length = 1 by omega]
    rfl
  have ht2 : stC.chainTags.getD (st.operations.length + 2) Operation.NO_CHAIN
      = Operation.CHAIN_END := by
    rw [htags, List.getD_append_right _ _ _ _ (by omega), hmaplen,
      show st.operations.length + 2 - st.operations.length = 2 by omega]
    rfl
  have hstart : startOfChain stC.chainTags (st.operations.length + 2)
      = st.operations.length := by
    have hrun := startOfChain_run stC.chainTags st.operations.length
      (by rw [ht0]; decide) 2
      (by
        intro kk h1 h2
        have hk : kk = st.operations.length + 1
            ∨ kk = st.operations.length + 2 := by omega
        rcases hk with hk | hk
        · subst hk; exact Or.inl ht1
        · subst hk; exact Or.inr ht2)
    exact hrun
  have hspan : ([⟨c1.parent, some st.next_pool_id, some c1.obj, "",
        c1.op_type, Operation.CHAIN_START, c1.object_idx⟩,
      ⟨c2.parent, some (st.next_pool_id + 1), some c2.obj, "", c2.op_type,
        Operation.CHAIN_MIDDLE, c2.object_idx⟩,
      ⟨c3.parent, some (st.next_pool_id + 2), some c3.obj, "", c3.op_type,
        Operation.CHAIN_END, c3.object_idx⟩] : List Operation)
      = (stC.operations.drop st.operations.length).take
          (st.operations.length + 2 + 1 - st.operations.length) := by
    rw [hops, List.drop_left,
      show st.operations.length + 2 + 1 - st.operations.length = 3 by omega]
    rfl
  have hundo := undoOperation_of_pos stC
    (by rw [hidx]; exact_mod_cast Nat.succ_pos (st.operations.length + 2))
    (st.operations.length + 2) (startOfChain stC.chainTags (st.operations.length + 2))
    ([⟨c1.parent, some st.next_pool_id, some c1.obj, "",
        c1.op_type, Operation.CHAIN_START, c1.object_idx⟩,
      ⟨c2.parent, some (st.next_pool_id + 1), some c2.obj, "", c2.op_type,
        Operation.CHAIN_MIDDLE, c2.object_idx⟩,
      ⟨c3.parent, some (st.next_pool_id + 2), some c3.obj, "", c3.op_type,
        Operation.CHAIN_END, c3.object_idx⟩])
    (by rw [hidx]; omega) rfl (by rw [hstart]; exact hspan)
  rw [hstart] at hundo
  have hUidx : (stC.undoOperation).1.current_index
      = (st.operations.length : Int) := by rw [hundo]
  have hUops : (stC.undoOperation).1.operations = stC.operations := by
    rw [hundo]
  have hUsig : (stC.undoOperation).1.signals_emitted
      = stC.signals_emitted + 3 := by
    rw [hundo]
    rfl
  have hUtags : (stC.undoOperation).1.chainTags = stC.chainTags := by
    show (stC.undoOperation).1.operations.map (·.chain_type) = _
    rw [hUops]
    rfl
  have hfwd : fwdLen ([Operation.CHAIN_START, Operation.CHAIN_MIDDLE,
      Operation.CHAIN_END] : List Nat) = 2 := by decide
  have hredo := redoOperation_of_lt (stC.undoOperation).1
    (by
      rw [hUidx, hUops, hops, List.length_append]
      simp only [List.length_cons, List.length_nil]
      exact_mod_cast (by omega : st.operations.length < st.operations.length + (2 + 1)))
    st.operations.length (st.operations.length + 2)
    ([⟨c1.parent, some st.next_pool_id, some c1.obj, "",
        c1.op_type, Operation.CHAIN_START, c1.object_idx⟩,
      ⟨c2.parent, some (st.next_pool_id + 1), some c2.obj, "", c2.op_type,
        Operation.CHAIN_MIDDLE, c2.object_idx⟩,
      ⟨c3.parent, some (st.next_pool_id + 2), some c3.obj, "", c3.op_type,
        Operation.CHAIN_END, c3.object_idx⟩])
    (by rw [hUidx]; simp)
    (by rw [hUtags, htags, ← hmaplen, List.drop_left, hfwd])
    (by rw [hUops]; exact hspan)
  refine ⟨?_, ?_, ?_, ?_, ?_, ?_, ?_, ?_⟩
  · rw [hidx, hend]
    push_cast
    ring
  · rw [hundo]
  · rw [hUidx, hidx]
    push_cast
    ring
  · exact hUsig
  · unfold isUndoAvailable
    rw [hUidx]
    constructor
    · intro h
      have hlen0 : st.operations.length = 0 := by
        by_contra hne
        have : (0 : Int) < (st.operations.length : Int) := by
          exact_mod_cast Nat.pos_of_ne_zero hne
        rw [decide_eq_true this] at h
        exact Bool.noConfusion h
      exact List.length_eq_zero.mp hlen0
    · intro h
      rw [h]
      rfl
  · rw [hredo]
  · rw [hredo]
    dsimp only
    rw [hidx]
  · rw [hredo]
    dsimp only
    rw [hUsig]
    simp only [List.length_cons, List.length_nil]

/-- Witness for C4: a 3-operation chain registered on top of a 1-entry
history; one undo moves the cursor from 4 to 1 and one redo moves it back
to 4. -/
theorem c4_chain_atomicity_witness :
    (((((applyRegs (OperationList.init 10 (fun _ => some 0))
        [⟨0, Operation.OBJECT_MODIFIED, -1, none⟩]).startOperationChain.registerObject
          1 Operation.OBJECT_MODIFIED (-1) none).registerObject
          2 Operation.OBJECT_MODIFIED (-1) none).registerObject
          3 Operation.OBJECT_MODIFIED (-1) none).finishOperationChain).undoOperation.1.current_index
      = ((((((applyRegs (OperationList.init 10 (fun _ => some 0))
        [⟨0, Operation.OBJECT_MODIFIED, -1, none⟩]).startOperationChain.registerObject
          1 Operation.OBJECT_MODIFIED (-1) none).registerObject
          2 Operation.OBJECT_MODIFIED (-1) none).registerObject
          3 Operation.OBJECT_MODIFIED (-1) none).finishOperationChain).current_index - 3)
    ∧ ((((((applyRegs (OperationList.init 10 (fun _ => some 0))
        [⟨0, Operation.OBJECT_MODIFIED, -1, none⟩]).startOperationChain.registerObject
          1 Operation.OBJECT_MODIFIED (-1) none).registerObject
          2 Operation.OBJECT_MODIFIED (-1) none).registerObject
          3 Operation.OBJECT_MODIFIED (-1) none).finishOperationChain).undoOperation.1.redoOperation).1.current_index
      = (((((applyRegs (OperationList.init 10 (fun _ => some 0))
        [⟨0, Operation.OBJECT_MODIFIED, -1, none⟩]).startOperationChain.registerObject
          1 Operation.OBJECT_MODIFIED (-1) none).registerObject
          2 Operation.OBJECT_MODIFIED (-1) none).registerObject
          3 Operation.OBJECT_MODIFIED (-1) none).finishOperationChain).current_index :=
  ⟨(c4_chain_atomicity
      (applyRegs (OperationList.init 10 (fun _ => some 0))
        [⟨0, Operation.OBJECT_MODIFIED, -1, none⟩]) _
      ⟨1, Operation.OBJECT_MODIFIED, -1, none⟩
      ⟨2, Operation.OBJECT_MODIFIED, -1, none⟩
      ⟨3, Operation.OBJECT_MODIFIED, -1, none⟩
      rfl (by decide) (by decide) (by decide) (by decide)).2.2.1,
   (c4_chain_atomicity
      (applyRegs (OperationList.init 10 (fun _ => some 0))
        [⟨0, Operation.OBJECT_MODIFIED, -1, none⟩]) _
      ⟨1, Operation.OBJECT_MODIFIED, -1, none⟩
      ⟨2, Operation.OBJECT_MODIFIED, -1, none⟩
      ⟨3, Operation.OBJECT_MODIFIED, -1, none⟩
      rfl (by decide) (by decide) (by decide) (by decide)).2.2.2.2.2.2.1⟩

theorem seqFrom_snoc (s : Nat) : ∀ n, seqFrom s (n + 1) = seqFrom s n ++ [s + n] := by
  intro n
  induction n generalizing s with
  | zero => simp [seqFrom]
  | succ m ih =>
    show s :: seqFrom (s + 1) (m + 1) = (s :: seqFrom (s + 1) m) ++ [s + (m + 1)]
    rw [ih (s + 1)]
    simp only [List.cons_append]
    rw [show s + 1 + m = s + (m + 1) by omega]

theorem mem_seqFrom (x : Nat) : ∀ (s n : Nat), x ∈ seqFrom s n → s ≤ x ∧ x < s + n := by
  intro s n
  induction n generalizing s with
  | zero => intro h; exact absurd h (List.not_mem_nil x)
  | succ m ih =>
    intro h
    rcases List.mem_cons.mp h with rfl | h2
    · omega
    · have := ih (s + 1) h2
      omega

theorem applyRegs_fill : ∀ (calls : List RegCall) (st : OperationList),
    st.current_index = (st.operations.length : Int) →
    st.next_op_chain = Operation.NO_CHAIN →
    st.ignore_chain = false →
    st.operations.length + calls.length ≤ st.max_size →
    (applyRegs st calls).operations.map (·.pool_obj)
        = st.operations.map (·.pool_obj)
          ++ (seqFrom st.next_pool_id calls.length).map some
    ∧ (applyRegs st calls).operations.map (·.original_obj)
        = st.operations.map (·.original_obj) ++ calls.map (fun c => some c.obj)
    ∧ (applyRegs st calls).object_pool
        = st.object_pool ++ seqFrom st.next_pool_id calls.length
    ∧ (applyRegs st calls).next_pool_id = st.next_pool_id + calls.length
    ∧ (applyRegs st calls).operations.length
        = st.operations.length + calls.length
    ∧ (applyRegs st calls).current_index
        = ((st.operations.length + calls.length : Nat) : Int)
    ∧ (applyRegs st calls).max_size = st.max_size
    ∧ (applyRegs st calls).next_op_chain = Operation.NO_CHAIN
    ∧ (applyRegs st calls).ignore_chain = false
    ∧ (applyRegs st calls).not_removed_objs = st.not_removed_objs := by
  intro calls
  induction calls with
  | nil =>
    intro st hend hnc hig hcap
    refine ⟨by simp [applyRegs, seqFrom], by simp [applyRegs],
      by simp [applyRegs, seqFrom], by simp [applyRegs], by simp [applyRegs],
      by simp [applyRegs]; exact hend, rfl, hnc, hig, rfl⟩
  | cons c rest ih =>
    intro st hend hnc hig hcap
    have hcap1 : st.operations.length < st.max_size := by
      simp only [List.length_cons] at hcap
      omega
    have hreg := registerObject_at_end_nochain st c.obj c.op_type c.object_idx
      c.parent hend hcap1 hnc hig
    have happ : applyRegs st (c :: rest)
        = applyRegs (st.registerObject c.obj c.op_type c.object_idx c.parent)
            rest := rfl
    rw [happ, hreg]
    obtain ⟨g1, g2, g3, g4, g5, g6, g7, g8, g9, g10⟩ := ih
      { st with
        object_pool := st.object_pool ++ [st.next_pool_id]
        pool_content := setFn st.pool_content st.next_pool_id (st.model c.obj)
        next_pool_id := st.next_pool_id + 1
        operations := st.operations ++
          [{ parent_obj := c.parent
             pool_obj := some st.next_pool_id
             original_obj := some c.obj
             xml_definition := ""
             op_type := c.op_type
             chain_type := Operation.NO_CHAIN
             object_idx := c.object_idx }]
        next_op_chain := Operation.NO_CHAIN
        current_index := ((st.operations.length + 1 : Nat) : Int) }
      (by dsimp only; rw [List.length_append]; rfl)
      rfl hig
      (by
        dsimp only
        rw [List.length_append]
        simp only [List.length_cons, List.length_nil] at hcap ⊢
        omega)
    dsimp only at g1 g2 g3 g4 g5 g6 g7 g8 g9 g10
    refine ⟨?_, ?_, ?_, ?_, ?_, ?_, g7, g8, g9, g10⟩
    · rw [g1, List.map_append, List.append_assoc]
      simp only [List.length_cons, List.map_cons, List.map_nil]
      rw [show seqFrom st.next_pool_id (rest.length + 1)
          = st.next_pool_id :: seqFrom (st.next_pool_id + 1) rest.length from rfl]
      rfl
    · rw [g2, List.map_append, List.append_assoc]
      rfl
    · rw [g3, List.append_assoc]
      simp only [List.length_cons]
      rw [show seqFrom st.next_pool_id (rest.length + 1)
          = st.next_pool_id :: seqFrom (st.next_pool_id + 1) rest.length from rfl]
      rfl
    · rw [g4]
      simp only [List.length_cons]
      omega
    · rw [g5, List.length_append]
      simp only [List.length_cons, List.length_nil]
      omega
    · rw [g6, List.length_append]
      simp only [List.length_cons, List.length_nil]
      congr 1
      omega

theorem seqFrom_length (s : Nat) : ∀ n, (seqFrom s n).length = n := by
  intro n
  induction n generalizing s with
  | zero => rfl
  | succ m ih =>
    show (seqFrom s (m + 1)).length = m + 1
    rw [show seqFrom s (m + 1) = s :: seqFrom (s + 1) m from rfl]
    simp [ih (s + 1)]

/-- **C5** — Capacity cap: with maximum size `N ≥ 1`, registering `N + 1`
operations on a fresh history leaves exactly `N` operations; the oldest
operation is discarded while the other `N` survive in order, and the
discarded operation's pool entry (handle 0) is gone from the pool, is
referenced by no remaining operation (reference count zero), and its
snapshot storage is deallocated (no leak). -/
theorem c5_capacity_cap (N : Nat) (calls : List RegCall) (m0 : Nat → Option Nat)
    (hN : 1 ≤ N) (hlen : calls.length = N + 1) :
    (applyRegs (OperationList.init N m0) calls).operations.length = N
    ∧ (applyRegs (OperationList.init N m0) calls).operations.map (·.original_obj)
        = (calls.drop 1).map (fun c => some c.obj)
    ∧ (applyRegs (OperationList.init N m0) calls).object_pool = seqFrom 1 N
    ∧ (applyRegs (OperationList.init N m0) calls).refCount 0 = 0
    ∧ (applyRegs (OperationList.init N m0) calls).pool_content 0 = none := by
  have hne : calls ≠ [] := by
    intro h
    rw [h] at hlen
    simp at hlen
  obtain ⟨front, lastc, hcall⟩ : ∃ front lastc, calls = front ++ [lastc] :=
    ⟨calls.dropLast, calls.getLast hne, (List.dropLast_append_getLast hne).symm⟩
  subst hcall
  have hflen : front.length = N := by
    rw [List.length_append] at hlen
    simp only [List.length_cons, List.length_nil] at hlen
    omega
  obtain ⟨p1, p2, p3, p4, p5, p6, p7, p8, p9, p10⟩ := applyRegs_fill front
    (OperationList.init N m0) rfl rfl rfl
    (by show 0 + front.length ≤ N; omega)
  have q1 : (applyRegs (OperationList.init N m0) front).operations.map
      (·.pool_obj) = (seqFrom 0 N).map some := by
    rw [p1, hflen]
    rfl
  have q2 : (applyRegs (OperationList.init N m0) front).operations.map
      (·.original_obj) = front.map (fun c => some c.obj) := by
    rw [p2]
    rfl
  have q3 : (applyRegs (OperationList.init N m0) front).object_pool
      = seqFrom 0 N := by
    rw [p3, hflen]
    rfl
  have q4 : (applyRegs (OperationList.init N m0) front).next_pool_id = N := by
    rw [p4, hflen]
    show 0 + N = N
    omega
  have q5 : (applyRegs (OperationList.init N m0) front).operations.length
      = N := by
    rw [p5, hflen]
    show 0 + N = N
    omega
  have q6 : (applyRegs (OperationList.init N m0) front).current_index
      = (N : Int) := by
    rw [p6, hflen]
    show ((0 + N : Nat) : Int) = (N : Int)
    omega
  have q7 : (applyRegs (OperationList.init N m0) front).max_size = N :=
    p7.trans rfl
  have q10 : (applyRegs (OperationList.init N m0) front).not_removed_objs
      = [] := p10.trans rfl
  obtain ⟨M, hM⟩ : ∃ M, N = M + 1 := ⟨N - 1, by omega⟩
  have happ : applyRegs (OperationList.init N m0) (front ++ [lastc])
      = (applyRegs (OperationList.init N m0) front).registerObject lastc.obj
          lastc.op_type lastc.object_idx lastc.parent := by
    unfold applyRegs
    rw [List.foldl_append]
    rfl
  rw [happ]
  cases hA : (applyRegs (OperationList.init N m0) front).operations with
  | nil =>
    rw [hA] at q5
    simp at q5
    omega
  | cons o0 rest0 =>
    rw [hA] at q1 q2
    rw [hM] at q1
    rw [show seqFrom 0 (M + 1) = 0 :: seqFrom 1 M from rfl] at q1
    simp only [List.map_cons] at q1
    have hpool0 : o0.pool_obj = some 0 := (List.cons_eq_cons.mp q1).1
    have hrestpool : rest0.map (·.pool_obj) = (seqFrom 1 M).map some :=
      (List.cons_eq_cons.mp q1).2
    obtain ⟨f0, frest, hfr⟩ : ∃ f0 frest, front = f0 :: frest := by
      cases front with
      | nil => simp at hflen; omega
      | cons a l => exact ⟨a, l, rfl⟩
    · rw [hfr] at q2
      simp only [List.map_cons] at q2
      have hrestorig : rest0.map (·.original_obj)
          = frest.map (fun c => some c.obj) := (List.cons_eq_cons.mp q2).2
      have hrestlen : rest0.length = M := by
        have hcl := congrArg List.length hrestpool
        simp only [List.length_map, seqFrom_length] at hcl
        exact hcl
      have hrestne0 : ∀ op ∈ rest0, ¬(op.pool_obj = some 0) := by
        intro op hop heq
        have hmem : op.pool_obj ∈ (seqFrom 1 M).map some := by
          rw [← hrestpool]
          exact List.mem_map_of_mem _ hop
        simp only [List.mem_map] at hmem
        obtain ⟨x, hx, hxe⟩ := hmem
        obtain ⟨hx1, _⟩ := mem_seqFrom x 1 M hx
        rw [heq] at hxe
        have hx0 : x = 0 := Option.some.inj hxe
        omega
      have htr : truncateRedo (applyRegs (OperationList.init N m0) front)
          = applyRegs (OperationList.init N m0) front :=
        truncateRedo_of_at_end _ (by rw [q6, q5])
      have href : refCount { applyRegs (OperationList.init N m0) front with
          operations := rest0 } 0 = 0 := by
        unfold refCount
        dsimp only
        rw [List.filter_eq_nil_iff.mpr (by
          intro a ha
          simp only [decide_eq_true_eq]
          exact hrestne0 a ha)]
        rfl
      have hev : evictOldest (applyRegs (OperationList.init N m0) front)
          = { applyRegs (OperationList.init N m0) front with
              operations := rest0
              object_pool :=
                (applyRegs (OperationList.init N m0) front).object_pool.erase 0
              pool_content :=
                setFn (applyRegs (OperationList.init N m0) front).pool_content
                  0 none } := by
        unfold evictOldest
        rw [hA]
        dsimp only
        rw [releaseOps_cons, hpool0]
        dsimp only
        unfold releaseOps
        simp only [List.foldl_nil]
        unfold removeFromPool
        rw [if_pos ⟨href, by dsimp only; rw [q10]; exact List.not_mem_nil 0⟩]
      have hreg2 : (applyRegs (OperationList.init N m0) front).registerObject
          lastc.obj lastc.op_type lastc.object_idx lastc.parent
          = { applyRegs (OperationList.init N m0) front with
              operations := rest0 ++
                [⟨lastc.parent, some N, some lastc.obj, "", lastc.op_type,
                  Operation.NO_CHAIN, lastc.object_idx⟩]
              object_pool :=
                (applyRegs (OperationList.init N m0) front).object_pool.erase 0
                  ++ [N]
              pool_content := setFn
                (setFn (applyRegs (OperationList.init N m0) front).pool_content
                  0 none) N
                ((applyRegs (OperationList.init N m0) front).model lastc.obj)
              next_pool_id := N + 1
              next_op_chain := Operation.NO_CHAIN
              current_index := ((rest0.length + 1 : Nat) : Int) } := by
        unfold registerObject
        rw [htr]
        dsimp only
        rw [if_pos (by rw [q7, q5]), hev]
        dsimp only
        rw [q4, p9, p8]
        rw [if_neg (by decide), if_neg (by decide)]
      refine ⟨?_, ?_, ?_, ?_, ?_⟩
      · rw [hreg2]
        dsimp only
        rw [List.length_append, hrestlen]
        simp only [List.length_cons, List.length_nil]
        omega
      · rw [hreg2]
        dsimp only
        rw [List.map_append, hrestorig, hfr]
        simp only [List.cons_append, List.drop_succ_cons, List.drop_zero,
          List.map_append, List.map_cons, List.map_nil]
      · rw [hreg2]
        dsimp only
        rw [q3, hM, show seqFrom 0 (M + 1) = 0 :: seqFrom 1 M from rfl,
          List.erase_cons_head, seqFrom_snoc, show 1 + M = M + 1 from by omega]
      · rw [hreg2]
        unfold refCount
        dsimp only
        rw [List.filter_append,
          List.filter_eq_nil_iff.mpr (by
            intro a ha
            simp only [decide_eq_true_eq]
            exact hrestne0 a ha)]
        simp only [List.nil_append, List.filter_cons, List.filter_nil]
        rw [if_neg (by simp only [decide_eq_true_eq, Option.some.injEq]; omega)]
        rfl
      · rw [hreg2]
        dsimp only
        rw [setFn_ne _ _ _ _ (by omega), setFn_self]

/-- Witness for C5: capacity 2, three registrations; operations 2 and 3
survive, handle 0 is released with reference count zero. -/
theorem c5_capacity_cap_witness :
    (applyRegs (OperationList.init 2 (fun _ => none))
      [⟨0, Operation.OBJECT_MODIFIED, -1, none⟩,
       ⟨1, Operation.OBJECT_MODIFIED, -1, none⟩,
       ⟨2, Operation.OBJECT_MODIFIED, -1, none⟩]).operations.length = 2
    ∧ (applyRegs (OperationList.init 2 (fun _ => none))
      [⟨0, Operation.OBJECT_MODIFIED, -1, none⟩,
       ⟨1, Operation.OBJECT_MODIFIED, -1, none⟩,
       ⟨2, Operation.OBJECT_MODIFIED, -1, none⟩]).refCount 0 = 0
    ∧ (applyRegs (OperationList.init 2 (fun _ => none))
      [⟨0, Operation.OBJECT_MODIFIED, -1, none⟩,
       ⟨1, Operation.OBJECT_MODIFIED, -1, none⟩,
       ⟨2, Operation.OBJECT_MODIFIED, -1, none⟩]).pool_content 0 = none :=
  ⟨(c5_capacity_cap 2
      [⟨0, Operation.OBJECT_MODIFIED, -1, none⟩,
       ⟨1, Operation.OBJECT_MODIFIED, -1, none⟩,
       ⟨2, Operation.OBJECT_MODIFIED, -1, none⟩] (fun _ => none)
      (by decide) rfl).1,
   (c5_capacity_cap 2
      [⟨0, Operation.OBJECT_MODIFIED, -1, none⟩,
       ⟨1, Operation.OBJECT_MODIFIED, -1, none⟩,
       ⟨2, Operation.OBJECT_MODIFIED, -1, none⟩] (fun _ => none)
      (by decide) rfl).2.2.2.1,
   (c5_capacity_cap 2
      [⟨0, Operation.OBJECT_MODIFIED, -1, none⟩,
       ⟨1, Operation.OBJECT_MODIFIED, -1, none⟩,
       ⟨2, Operation.OBJECT_MODIFIED, -1, none⟩] (fun _ => none)
      (by decide) rfl).2.2.2.2⟩

/-- **C2** — Inverse pair (spec §8): in every cursor-valid state whose
chain block adjacent to the cursor is well-formed, `undoOperation`
immediately followed by `redoOperation` succeeds and leaves the model, the
pool contents, the history list and the cursor unchanged; symmetrically,
when redo is available, `redoOperation` followed by `undoOperation` leaves
the state unchanged. -/
theorem c2_undo_redo_inverse_pair (st : OperationList) (hInv : st.CursorInv) :
    (0 < st.current_index →
      (∃ b, b < st.current_index.toNat
        ∧ IsChainBlock st.chainTags b (st.current_index.toNat - 1)) →
      (st.undoOperation).2 = true
      ∧ ((st.undoOperation).1.redoOperation).2 = true
      ∧ ((st.undoOperation).1.redoOperation).1.model = st.model
      ∧ ((st.undoOperation).1.redoOperation).1.pool_content = st.pool_content
      ∧ ((st.undoOperation).1.redoOperation).1.operations = st.operations
      ∧ ((st.undoOperation).1.redoOperation).1.object_pool = st.object_pool
      ∧ ((st.undoOperation).1.redoOperation).1.current_index
          = st.current_index)
    ∧ (st.current_index < (st.operations.length : Int) →
      (∃ e, e < st.operations.length
        ∧ IsChainBlock st.chainTags st.current_index.toNat e) →
      (st.redoOperation).2 = true
      ∧ ((st.redoOperation).1.undoOperation).2 = true
      ∧ ((st.redoOperation).1.undoOperation).1.model = st.model
      ∧ ((st.redoOperation).1.undoOperation).1.pool_content = st.pool_content
      ∧ ((st.redoOperation).1.undoOperation).1.operations = st.operations
      ∧ ((st.redoOperation).1.undoOperation).1.object_pool = st.object_pool
      ∧ ((st.redoOperation).1.undoOperation).1.current_index
          = st.current_index) := by
  obtain ⟨hge, hle⟩ := hInv
  have htlen : st.chainTags.length = st.operations.length := List.length_map _ _
  constructor
  · rintro hpos ⟨b, hblt, hblock⟩
    obtain ⟨hso, hfw⟩ := IsChainBlock.spans st.chainTags b
      (st.current_index.toNat - 1) hblock (by omega)
    have hundo := undoOperation_of_pos st hpos (st.current_index.toNat - 1) b
      ((st.operations.drop b).take (st.current_index.toNat - 1 + 1 - b))
      rfl hso.symm rfl
    have hUidx : (st.undoOperation).1.current_index = (b : Int) := by
      rw [hundo]
    have hUops : (st.undoOperation).1.operations = st.operations := by
      rw [hundo]
    have hUobj : (st.undoOperation).1.object_pool = st.object_pool := by
      rw [hundo]
    have hUw : ((st.undoOperation).1.model, (st.undoOperation).1.pool_content)
        = ((st.operations.drop b).take
            (st.current_index.toNat - 1 + 1 - b)).reverse.foldl poolModelSwap
          (st.model, st.pool_content) := by
      rw [hundo]
    have hUtags : (st.undoOperation).1.chainTags = st.chainTags := by
      show (st.undoOperation).1.operations.map (·.chain_type) = _
      rw [hUops]
      rfl
    have hredo := redoOperation_of_lt (st.undoOperation).1
      (by rw [hUidx, hUops]; omega)
      b (st.current_index.toNat - 1)
      ((st.operations.drop b).take (st.current_index.toNat - 1 + 1 - b))
      (by rw [hUidx]; simp)
      (by rw [hUtags, hfw])
      (by rw [hUops])
    have hcancel : ((st.operations.drop b).take
          (st.current_index.toNat - 1 + 1 - b)).foldl poolModelSwap
          ((st.undoOperation).1.model, (st.undoOperation).1.pool_content)
        = (st.model, st.pool_content) := by
      rw [hUw]
      exact foldSwap_cancel_rev _ (st.model, st.pool_content)
    refine ⟨by rw [hundo], by rw [hredo], ?_, ?_, ?_, ?_, ?_⟩
    · rw [hredo]
      show (((st.operations.drop b).take
          (st.current_index.toNat - 1 + 1 - b)).foldl poolModelSwap
          ((st.undoOperation).1.model, (st.undoOperation).1.pool_content)).1
        = st.model
      rw [hcancel]
    · rw [hredo]
      show (((st.operations.drop b).take
          (st.current_index.toNat - 1 + 1 - b)).foldl poolModelSwap
          ((st.undoOperation).1.model, (st.undoOperation).1.pool_content)).2
        = st.pool_content
      rw [hcancel]
    · rw [hredo]
      show (st.undoOperation).1.operations = st.operations
      exact hUops
    · rw [hredo]
      show (st.undoOperation).1.object_pool = st.object_pool
      exact hUobj
    · rw [hredo]
      show ((st.current_index.toNat - 1 + 1 : Nat) : Int) = st.current_index
      omega
  · rintro hlt ⟨e, helt, hblock⟩
    obtain ⟨hso, hfw⟩ := IsChainBlock.spans st.chainTags
      st.current_index.toNat e hblock (by omega)
    have hredo := redoOperation_of_lt st hlt st.current_index.toNat e
      ((st.operations.drop st.current_index.toNat).take
        (e + 1 - st.current_index.toNat))
      rfl hfw.symm rfl
    have hRidx : (st.redoOperation).1.current_index = ((e + 1 : Nat) : Int) := by
      rw [hredo]
    have hRops : (st.redoOperation).1.operations = st.operations := by
      rw [hredo]
    have hRobj : (st.redoOperation).1.object_pool = st.object_pool := by
      rw [hredo]
    have hRw : ((st.redoOperation).1.model, (st.redoOperation).1.pool_content)
        = ((st.operations.drop st.current_index.toNat).take
            (e + 1 - st.current_index.toNat)).foldl poolModelSwap
          (st.model, st.pool_content) := by
      rw [hredo]
    have hRtags : (st.redoOperation).1.chainTags = st.chainTags := by
      show (st.redoOperation).1.operations.map (·.chain_type) = _
      rw [hRops]
      rfl
    have hundo2 := undoOperation_of_pos (st.redoOperation).1
      (by rw [hRidx]; exact_mod_cast Nat.succ_pos e)
      e st.current_index.toNat
      ((st.operations.drop st.current_index.toNat).take
        (e + 1 - st.current_index.toNat))
      (by rw [hRidx]; simp)
      (by rw [hRtags, hso])
      (by rw [hRops])
    have hcancel2 : ((st.operations.drop st.current_index.toNat).take
          (e + 1 - st.current_index.toNat)).reverse.foldl poolModelSwap
          ((st.redoOperation).1.model, (st.redoOperation).1.pool_content)
        = (st.model, st.pool_content) := by
      rw [hRw]
      exact foldSwap_cancel_fwd _ (st.model, st.pool_content)
    refine ⟨by rw [hredo], by rw [hundo2], ?_, ?_, ?_, ?_, ?_⟩
    · rw [hundo2]
      show (((st.operations.drop st.current_index.toNat).take
          (e + 1 - st.current_index.toNat)).reverse.foldl poolModelSwap
          ((st.redoOperation).1.model, (st.redoOperation).1.pool_content)).1
        = st.model
      rw [hcancel2]
    · rw [hundo2]
      show (((st.operations.drop st.current_index.toNat).take
          (e + 1 - st.current_index.toNat)).reverse.foldl poolModelSwap
          ((st.redoOperation).1.model, (st.redoOperation).1.pool_content)).2
        = st.pool_content
      rw [hcancel2]
    · rw [hundo2]
      show (st.redoOperation).1.operations = st.operations
      exact hRops
    · rw [hundo2]
      show (st.redoOperation).1.object_pool = st.object_pool
      exact hRobj
    · rw [hundo2]
      show ((st.current_index.toNat : Nat) : Int) = st.current_index
      omega

/-- Witness for C2: a 2-entry unchained history with the cursor between the
entries; undo-then-redo and redo-then-undo both restore the cursor. -/
theorem c2_undo_redo_inverse_pair_witness :
    ((((applyRegs (OperationList.init 10 (fun _ => some 0))
        [⟨0, Operation.OBJECT_MODIFIED, -1, none⟩,
         ⟨1, Operation.OBJECT_MODIFIED, -1, none⟩]).undoOperation).1.undoOperation).1.redoOperation).1.current_index
      = (((applyRegs (OperationList.init 10 (fun _ => some 0))
        [⟨0, Operation.OBJECT_MODIFIED, -1, none⟩,
         ⟨1, Operation.OBJECT_MODIFIED, -1, none⟩]).undoOperation).1).current_index
    ∧ ((((applyRegs (OperationList.init 10 (fun _ => some 0))
        [⟨0, Operation.OBJECT_MODIFIED, -1, none⟩,
         ⟨1, Operation.OBJECT_MODIFIED, -1, none⟩]).undoOperation).1.redoOperation).1.undoOperation).1.current_index
      = (((applyRegs (OperationList.init 10 (fun _ => some 0))
        [⟨0, Operation.OBJECT_MODIFIED, -1, none⟩,
         ⟨1, Operation.OBJECT_MODIFIED, -1, none⟩]).undoOperation).1).current_index :=
  have h := c2_undo_redo_inverse_pair
    (((applyRegs (OperationList.init 10 (fun _ => some 0))
      [⟨0, Operation.OBJECT_MODIFIED, -1, none⟩,
       ⟨1, Operation.OBJECT_MODIFIED, -1, none⟩]).undoOperation).1)
    (by decide)
  ⟨(h.1 (by decide) ⟨0, by decide, by decide⟩).2.2.2.2.2.2,
   (h.2 (by decide) ⟨1, by decide, by decide⟩).2.2.2.2.2.2⟩
